import Mathlib

/-!
# Verification of the budget web app's ledger and CSV-interchange logic

Shallow embedding of `src/budget_web_app.py`.

Modelling conventions:
* SQLite `REAL` monetary columns are modelled as exact rationals (`Rat`); the
  spec and the claims speak of exact decimal sums and 2-decimal rounding, so the
  decimal/rational model is the intended semantics of the numeric columns.
* Python strings are Lean `String`s; `str.strip()` is modelled by `pyStrip`
  (leading/trailing whitespace removal) and the Python truthiness idiom
  `a or b` for strings/None is modelled by `pyOr`.
* `float(value)` is modelled at two levels.  `pyFloatFull` embeds the
  complete grammar `float()` accepts on ASCII text — surrounding whitespace,
  an optional sign, underscore grouping, digits with optional fraction and
  exponent, and the case-insensitive `inf`/`infinity`/`nan` spellings — with
  finite results carried as the exact rational value of the text (CPython
  rounds that value to binary64, overflowing to an infinity and underflowing
  to a signed zero, which does not change which texts parse; CPython also
  first maps non-ASCII digits and spaces to ASCII).  `pyFloat` parses the
  plain decimal fragment of that grammar — an optional sign followed by
  digits with an optional single decimal point — and is proved a restriction
  of the full model in `pyFloat_restriction`; the store machinery uses it,
  as its claims only ever exchange such plain decimal text.
* `f"{x:.2f}"` is modelled by `fmt2`, rounding to a whole number of cents with
  `cents` (round-half-up; the claims only require equality "up to 2-decimal
  rounding") and printing the cents in decimal.
* The standard `Rat` arithmetic operations are irreducible to the kernel, so
  the embedding computes with the kernel-reducible `mkRat` instead (`qadd`,
  `qsub`, `qsum`, and `mkRat`-valued parsing); each such operation is proved
  equal to the corresponding abstract field operation (`qadd_eq` etc.), and
  all theorem statements use the abstract operations.
* `date.today().isoformat()` is an opaque input: every operation that consults
  the current date takes a `today : String` parameter.
* Each SQLite table is a Lean list kept in primary-key order (rows are only
  ever appended, with the `AUTOINCREMENT` key starting at 1 and increasing, so
  `ORDER BY id` is the identity on the stored list).
* A `with get_conn() as conn:` block commits on normal exit and rolls back on
  an exception (the `sqlite3` connection context manager), so every mutating
  operation returns the pair of the committed store and an `Except` result:
  on `.error` the returned store is the store from before the call.
-/

namespace BudgetApp
/-- The error taxonomy of the spec.  `parse_float` raises `invalidAmount` both
for non-numeric text and for negative values (two distinct Russian messages in
the source, both `ValueError`s); the empty-name/empty-description checks raise
`missingField`; the `UNIQUE` name violation surfaces as `duplicateName`; the
expense handler's failed project lookup raises `projectNotFound`. -/
inductive Err where
  | invalidAmount
  | missingField
  | duplicateName
  | projectNotFound
deriving DecidableEq, Repr

instance {ε α : Type} [DecidableEq ε] [DecidableEq α] : DecidableEq (Except ε α) := fun x y =>
  match x, y with
  | .error e, .error f =>
    if h : e = f then isTrue (by rw [h]) else isFalse (by intro hc; cases hc; exact h rfl)
  | .error _, .ok _ => isFalse (by intro hc; cases hc)
  | .ok _, .error _ => isFalse (by intro hc; cases hc)
  | .ok a, .ok b =>
    if h : a = b then isTrue (by rw [h]) else isFalse (by intro hc; cases hc; exact h rfl)

/-- Leading and trailing whitespace removal on character lists. -/
def stripL (l : List Char) : List Char :=
  ((l.dropWhile Char.isWhitespace).reverse.dropWhile Char.isWhitespace).reverse

/-- Python `str.strip()`: drop leading and trailing whitespace. -/
def pyStrip (s : String) : String :=
  ⟨stripL s.data⟩

/-- Python `a or b` for an optional string `a`: `b` when `a` is `None` or the
empty string (falsy), otherwise the string itself. -/
def pyOr (a : Option String) (b : String) : String :=
  match a with
  | none => b
  | some s => if s = "" then b else s

/-- Decimal digit to its character. -/
def digitToChar : Nat → Char
  | 0 => '0'
  | 1 => '1'
  | 2 => '2'
  | 3 => '3'
  | 4 => '4'
  | 5 => '5'
  | 6 => '6'
  | 7 => '7'
  | 8 => '8'
  | _ => '9'

/-- Character to decimal digit, `none` for non-digits. -/
def charToDigit (c : Char) : Option Nat :=
  if c = '0' then some 0
  else if c = '1' then some 1
  else if c = '2' then some 2
  else if c = '3' then some 3
  else if c = '4' then some 4
  else if c = '5' then some 5
  else if c = '6' then some 6
  else if c = '7' then some 7
  else if c = '8' then some 8
  else if c = '9' then some 9
  else none

/-- Split a character list into its maximal leading run of decimal digits
(as digit values) and the remainder. -/
def takeDigits : List Char → List Nat × List Char
  | [] => ([], [])
  | c :: cs =>
    match charToDigit c with
    | some d =>
      let r := takeDigits cs
      (d :: r.1, r.2)
    | none => ([], c :: cs)

/-- Value of a most-significant-first digit list. -/
def digitsVal (ds : List Nat) : Nat :=
  ds.foldl (fun a d => 10 * a + d) 0

/-- Kernel-reducible addition on `Rat` (equal to `+`, see `qadd_eq`). -/
def qadd (a b : Rat) : Rat :=
  mkRat (a.num * b.den + b.num * a.den) (a.den * b.den)

/-- Kernel-reducible subtraction on `Rat` (equal to `-`, see `qsub_eq`). -/
def qsub (a b : Rat) : Rat :=
  mkRat (a.num * b.den - b.num * a.den) (a.den * b.den)

/-- Kernel-reducible sum of a list of rationals (equal to `List.sum`). -/
def qsum (l : List Rat) : Rat :=
  l.foldr qadd 0

/-- Parse an unsigned decimal literal: digits, optionally followed by a single
point and further digits; at least one digit in total.  The value of
`I.F` with fraction length `k` is the rational `(I * 10 ^ k + F) / 10 ^ k`. -/
def pyFloatAux (cs : List Char) : Option Rat :=
  let p := takeDigits cs
  match p.2 with
  | [] => if p.1 = [] then none else some (digitsVal p.1 : Rat)
  | c2 :: rest =>
    if c2 = '.' then
      let f := takeDigits rest
      if f.2 = [] ∧ ¬(p.1 = [] ∧ f.1 = []) then
        some (mkRat (digitsVal p.1 * 10 ^ f.1.length + digitsVal f.1) (10 ^ f.1.length))
      else none
    else none

/-- Model of Python `float(value)` on the plain decimal fragment of its
grammar: optional sign, then an unsigned decimal literal.  This is the
restriction of the full model `pyFloatFull` to such text
(`pyFloat_restriction`). -/
def pyFloat (s : String) : Option Rat :=
  match s.data with
  | [] => none
  | c :: cs =>
    if c = '-' then (pyFloatAux cs).map (fun q => -q)
    else if c = '+' then pyFloatAux cs
    else pyFloatAux (c :: cs)

/-- `parse_float` (src lines 92-99): `float(value)`, raising on a parse
failure, then raising if the number is negative. -/
def parse_float (value : String) : Except Err Rat :=
  match pyFloat value with
  | none => .error .invalidAmount
  | some number => if number < 0 then .error .invalidAmount else .ok number

/-- The whitespace characters `float()` strips around its ASCII argument
(`Py_ISSPACE`): space, tab, newline, carriage return, vertical tab, form
feed. -/
def pySpace (c : Char) : Bool :=
  (c == ' ') || (c == '\t') || (c == '\n') || (c == '\r') || (c == '\x0b') || (c == '\x0c')

/-- Leading and trailing `float()` whitespace removed. -/
def floatStrip (l : List Char) : List Char :=
  ((l.dropWhile pySpace).reverse.dropWhile pySpace).reverse

/-- The values `float()` can return: a finite number (taken here as the exact
rational value of the decimal text), an infinity of either sign, or NaN. -/
inductive PyVal where
  | num (q : Rat)
  | inf (neg : Bool)
  | nan
deriving DecidableEq, Repr

/-- The rational a `float()` result denotes, if it denotes a real number at
all (`inf` and `nan` denote none). -/
def PyVal.toRat? : PyVal → Option Rat
  | .num q => some q
  | _ => none

/-- Match a case-insensitive ASCII word, given as (lowercase, uppercase)
pairs, against the front of the input; returns the rest on success. -/
def matchCI : List (Char × Char) → List Char → Option (List Char)
  | [], rest => some rest
  | _ :: _, [] => none
  | (lo, hi) :: ps, c :: cs => if c = lo ∨ c = hi then matchCI ps cs else none

/-- CPython's underscore rule for `float()` text (PEP 515 grouping): every
`_` must be immediately preceded and immediately followed by a decimal digit.
`prev` is the character before the current position. -/
def okAux : Option Char → List Char → Bool
  | _, [] => true
  | prev, c :: cs =>
    if c = '_' then
      (match prev with
        | some p => (charToDigit p).isSome
        | none => false) &&
      (match cs with
        | c2 :: _ => (charToDigit c2).isSome
        | [] => false) &&
      okAux (some c) cs
    else okAux (some c) cs

/-- All underscores in the text are legally placed. -/
def underscoresOK (l : List Char) : Bool :=
  okAux none l

/-- The digit run of an exponent: the entire remaining text must be a
non-empty run of digits. -/
def expDigits (cs : List Char) : Option Nat :=
  let d := takeDigits cs
  if d.1 = [] ∨ ¬(d.2 = []) then none else some (digitsVal d.1)

/-- The exponent after `e`/`E`: an optional sign, then digits. -/
def expPart (cs : List Char) : Option Int :=
  match cs with
  | '-' :: rest => (expDigits rest).map (fun n => -(n : Int))
  | '+' :: rest => (expDigits rest).map (fun n => (n : Int))
  | _ => (expDigits cs).map (fun n => (n : Int))

/-- The exact rational value of the decimal text `I.F` times `10 ^ ex`. -/
def decValue (I F : List Nat) (ex : Int) : Rat :=
  if 0 ≤ ex then
    mkRat ((digitsVal I * 10 ^ F.length + digitsVal F) * 10 ^ ex.toNat) (10 ^ F.length)
  else
    mkRat (digitsVal I * 10 ^ F.length + digitsVal F) (10 ^ F.length * 10 ^ (-ex).toNat)

/-- An unsigned number of the full `float()` grammar: a digit run, optionally
a point and a fractional digit run (at least one digit in the mantissa
overall), optionally an exponent; valued exactly. -/
def pyNumber (cs : List Char) : Option Rat :=
  let p := takeDigits cs
  match p.2 with
  | [] => if p.1 = [] then none else some (decValue p.1 [] 0)
  | c2 :: rest =>
    if c2 = '.' then
      let f := takeDigits rest
      if p.1 = [] ∧ f.1 = [] then none
      else
        match f.2 with
        | [] => some (decValue p.1 f.1 0)
        | e :: rest2 =>
          if e = 'e' ∨ e = 'E' then (expPart rest2).map (decValue p.1 f.1) else none
    else if c2 = 'e' ∨ c2 = 'E' then
      if p.1 = [] then none else (expPart rest).map (decValue p.1 [])
    else none

/-- The special spellings `float()` accepts after the optional sign: `inf`,
`infinity` and `nan`, case-insensitively and consuming the whole text.  The
sign of a NaN is discarded (`float("-nan")` is `nan`). -/
def pySpecial (neg : Bool) (cs : List Char) : Option PyVal :=
  match matchCI [('i', 'I'), ('n', 'N'), ('f', 'F')] cs with
  | some [] => some (PyVal.inf neg)
  | some rest =>
    match matchCI [('i', 'I'), ('n', 'N'), ('i', 'I'), ('t', 'T'), ('y', 'Y')] rest with
    | some [] => some (PyVal.inf neg)
    | _ => none
  | none =>
    match matchCI [('n', 'N'), ('a', 'A'), ('n', 'N')] cs with
    | some [] => some PyVal.nan
    | _ => none

/-- The body after the optional sign: a special spelling or a number. -/
def pyFloatSigned (neg : Bool) (cs : List Char) : Option PyVal :=
  match pySpecial neg cs with
  | some v => some v
  | none => (pyNumber cs).map (fun q => PyVal.num (if neg then -q else q))

/-- Model of Python `float(value)` over the complete grammar it accepts on
ASCII text: surrounding whitespace, an optional sign, underscore grouping
(validated and removed, as CPython does), and either a case-insensitive
`inf`/`infinity`/`nan` spelling or a decimal number with optional fraction
and exponent.  Finite results carry the exact rational value of the text;
CPython rounds that value to binary64 (overflowing to an infinity,
underflowing to a signed zero), which does not change which texts parse.
CPython also first maps non-ASCII decimal digits and non-ASCII spaces to
ASCII, so such texts are covered through their ASCII image. -/
def pyFloatFull (s : String) : Option PyVal :=
  let t := floatStrip s.data
  if underscoresOK t then
    match t.filter (fun c => !(c == '_')) with
    | [] => none
    | c :: cs =>
      if c = '-' then pyFloatSigned true cs
      else if c = '+' then pyFloatSigned false cs
      else pyFloatSigned false (c :: cs)
  else none

/-- Python `number < 0` on a `float()` result: true for negative finite
values and `-inf`, false for non-negative finite values, `+inf` and `nan`
(every comparison against NaN is false).  The finite case compares the exact
decimal value; the program compares its binary64 rounding, which has the same
sign except for negative texts of magnitude below the smallest subnormal,
which underflow to `-0.0` — a floating-point corner outside the rational
model. -/
def pyLt0 : PyVal → Bool
  | .num q => decide (q < 0)
  | .inf neg => neg
  | .nan => false

/-- `parse_float` (src lines 92-99) over the complete `float()` grammar:
`float(value)`, raising `ValueError` on a parse failure, then raising if
`number < 0`; in particular `inf` and `nan` pass the sign check and are
returned. -/
def parse_float_full (value : String) : Except Err PyVal :=
  match pyFloatFull value with
  | none => .error .invalidAmount
  | some v => if pyLt0 v then .error .invalidAmount else .ok v

/-- Monetary value as a whole number of cents, rounding half-up; the model of
the rounding performed by the `f"{x:.2f}"` format.  The argument of the floor
is `100 * q + 1 / 2` written as a single fraction so that the kernel can
compute it (see `cents_eq`). -/
def cents (q : Rat) : Int :=
  Rat.floor (mkRat (200 * q.num + q.den) (2 * q.den))

/-- A rational rounded to two decimal places. -/
def round2 (q : Rat) : Rat :=
  mkRat (cents q) 100

/-- Little-endian base-10 digit list, computed with structural recursion on a
fuel argument so that the kernel can evaluate it (Mathlib's `Nat.digits` uses
well-founded recursion).  `natDigits_eq` identifies it with `Nat.digits 10`. -/
def natDigitsAux : Nat → Nat → List Nat
  | 0, _ => []
  | _ + 1, 0 => []
  | fuel + 1, n + 1 => ((n + 1) % 10) :: natDigitsAux fuel ((n + 1) / 10)

/-- Little-endian base-10 digits of `n` (empty for `0`). -/
def natDigits (n : Nat) : List Nat :=
  natDigitsAux n n

/-- Decimal rendering of a natural number. -/
def natChars (n : Nat) : List Char :=
  if n = 0 then ['0'] else ((natDigits n).reverse.map digitToChar)

/-- Model of `f"{x:.2f}"`: the cents value printed as an integer part, a
point, and exactly two fractional digits, with a leading minus sign for
negative values. -/
def fmt2 (q : Rat) : String :=
  let c := cents q
  let a := c.natAbs
  let body := natChars (a / 100) ++ '.' :: [digitToChar (a % 100 / 10), digitToChar (a % 100 % 10)]
  if c < 0 then ⟨ '-' :: body⟩ else ⟨body⟩

/-- The most-significant-first digit list printed by `natChars`. -/
def msdigits (n : Nat) : List Nat :=
  if n = 0 then [0] else (natDigits n).reverse

/-! ### Data model: the `projects` and `expenses` tables -/

structure Project where
  id : Nat
  name : String
  planned_budget : Rat
  created_at : String
deriving DecidableEq, Repr

structure Expense where
  id : Nat
  project_id : Nat
  amount : Rat
  description : String
  expense_date : String
deriving DecidableEq, Repr

/-- The SQLite database: both tables in primary-key (= insertion) order plus
the next `AUTOINCREMENT` key of each. -/
structure Store where
  projects : List Project
  expenses : List Expense
  nextProjectId : Nat
  nextExpenseId : Nat
deriving DecidableEq, Repr

/-- The freshly initialised database (`AUTOINCREMENT` keys start at 1). -/
def Store.empty : Store := ⟨[], [], 1, 1⟩

/-- `INSERT INTO projects(name, planned_budget, created_at) VALUES(?,?,?)`. -/
def insertProject (st : Store) (name : String) (budget : Rat) (created : String) : Store :=
  { st with projects := st.projects ++ [⟨st.nextProjectId, name, budget, created⟩],
            nextProjectId := st.nextProjectId + 1 }

/-- `INSERT INTO expenses(project_id, amount, description, expense_date)`. -/
def insertExpense (st : Store) (pid : Nat) (amount : Rat) (desc date : String) : Store :=
  { st with expenses := st.expenses ++ [⟨st.nextExpenseId, pid, amount, desc, date⟩],
            nextExpenseId := st.nextExpenseId + 1 }

/-- First project with the given name, in id order. -/
def findNamed (P : List Project) (nm : String) : Option Project :=
  P.find? (fun p => p.name == nm)

/-- `SELECT id FROM projects WHERE name = ?` (first matching row in id order;
project names are unique in every reachable store). -/
def findByName (st : Store) (name : String) : Option Project :=
  findNamed st.projects name

/-- `SELECT ... FROM projects WHERE id = ?`. -/
def findById (st : Store) (pid : Nat) : Option Project :=
  st.projects.find? (fun p => p.id == pid)

/-! ### Read queries with aggregation -/

structure ProjView where
  id : Nat
  name : String
  planned_budget : Rat
  created_at : String
  spent : Rat
  remaining : Rat
deriving DecidableEq, Repr

/-- One output row of the aggregate queries (src lines 102-130): the
`LEFT JOIN expenses`/`GROUP BY p.id` row for project `p`, with
`COALESCE(SUM(e.amount), 0)` (the empty sum is 0) and
`p.planned_budget - COALESCE(SUM(e.amount), 0)`. -/
def projView (st : Store) (p : Project) : ProjView :=
  let spent := qsum ((st.expenses.filter (fun e => e.project_id == p.id)).map Expense.amount)
  ⟨p.id, p.name, p.planned_budget, p.created_at, spent, qsub p.planned_budget spent⟩

/-- Insertion sort, used to model the SQL `ORDER BY` clauses. -/
def insertLE {α : Type} (le : α → α → Bool) (a : α) : List α → List α
  | [] => [a]
  | b :: l => if le a b then a :: b :: l else b :: insertLE le a l

def sortByLE {α : Type} (le : α → α → Bool) : List α → List α
  | [] => []
  | a :: l => insertLE le a (sortByLE le l)

/-- `ORDER BY p.created_at DESC, p.id DESC`. -/
def projOrder (a b : Project) : Bool :=
  decide (b.created_at < a.created_at) ||
    (b.created_at == a.created_at && decide (b.id ≤ a.id))

/-- `query_projects` (src lines 102-114). -/
def query_projects (st : Store) : List ProjView :=
  (sortByLE projOrder st.projects).map (projView st)

/-- `query_project` (src lines 117-130). -/
def query_project (st : Store) (pid : Nat) : Option ProjView :=
  (findById st pid).map (projView st)

/-- `ORDER BY expense_date DESC, id DESC`. -/
def expOrder (a b : Expense) : Bool :=
  decide (b.expense_date < a.expense_date) ||
    (b.expense_date == a.expense_date && decide (b.id ≤ a.id))

/-- `query_expenses` (src lines 133-138). -/
def query_expenses (st : Store) (pid : Nat) : List Expense :=
  sortByLE expOrder (st.expenses.filter (fun e => e.project_id == pid))

/-! ### The import loop -/

/-- One CSV row: an association list from column name to cell text
(`row.get(k)` is `rowGet row k`). -/
abbrev Row := List (String × String)

def rowGet (row : Row) (k : String) : Option String :=
  List.lookup k row

/-- The budget half of the import loop body (src lines 157-165): if the
`Budget` cell is non-empty, parse it and create the project unless the name
already exists. -/
def budgetPhase (st : Store) (pa : Nat) (name budget_text created_at : String) :
    Except Err (Store × Nat) :=
  if budget_text = "" then .ok (st, pa)
  else
    match parse_float budget_text with
    | .error e => .error e
    | .ok budget =>
      match findByName st name with
      | some _ => .ok (st, pa)
      | none => .ok (insertProject st name budget created_at, pa + 1)

/-- The expense half of the import loop body (src lines 167-176): if the
`ExpenseAmount` cell is non-empty, parse it and insert the expense, silently
skipping the row when the project name is unknown. -/
def expensePhase (st : Store) (ea : Nat)
    (name expense_amount expense_description expense_date : String) :
    Except Err (Store × Nat) :=
  if expense_amount = "" then .ok (st, ea)
  else
    match parse_float expense_amount with
    | .error e => .error e
    | .ok amount =>
      match findByName st name with
      | none => .ok (st, ea)
      | some project =>
        .ok (insertExpense st project.id amount
              (if expense_description = "" then "Imported expense" else expense_description)
              expense_date, ea + 1)

/-- One iteration of the `import_rows` loop body (src lines 146-176), acting on
the in-transaction store and the two counters `projects_added` and
`expenses_added`. -/
def importStep (today : String) (acc : Store × Nat × Nat) (row : Row) :
    Except Err (Store × Nat × Nat) :=
  let name := pyStrip (pyOr (rowGet row "Project") "")
  if name = "" then .ok acc
  else
    match budgetPhase acc.1 acc.2.1 name
        (pyStrip (pyOr (rowGet row "Budget") ""))
        (pyStrip (pyOr (rowGet row "CreatedAt") today)) with
    | .error e => .error e
    | .ok (st1, pa1) =>
      match expensePhase st1 acc.2.2 name
          (pyStrip (pyOr (rowGet row "ExpenseAmount") ""))
          (pyStrip (pyOr (rowGet row "ExpenseDescription") ""))
          (pyStrip (pyOr (rowGet row "ExpenseDate") today)) with
      | .error e => .error e
      | .ok (st2, ea1) => .ok (st2, pa1, ea1)

def importLoop (today : String) : Store × Nat × Nat → List Row → Except Err (Store × Nat × Nat)
  | acc, [] => .ok acc
  | acc, r :: rs =>
    match importStep today acc r with
    | .ok acc2 => importLoop today acc2 rs
    | .error e => .error e

/-- `import_rows` (src lines 141-178).  The surrounding `with get_conn()`
block commits the final store on success and rolls back to the original store
when an exception escapes the loop, so the committed store is returned
alongside the result. -/
def import_rows (today : String) (st : Store) (rows : List Row) :
    Store × Except Err (Nat × Nat) :=
  match importLoop today (st, 0, 0) rows with
  | .ok (st2, pa, ea) => (st2, .ok (pa, ea))
  | .error e => (st, .error e)

/-! ### The form handlers -/

structure AddProjectForm where
  name : Option String
  planned_budget : Option String
  created_at : Option String

/-- `BudgetHandler.handle_add_project` (src lines 353-370), up to the redirect.
The `UNIQUE` constraint on `projects.name` is modelled by the name lookup;
`sqlite3.IntegrityError` surfaces as `duplicateName`. -/
def handle_add_project (today : String) (st : Store) (form : AddProjectForm) :
    Store × Except Err Unit :=
  let name := pyStrip (pyOr form.name "")
  if name = "" then (st, .error .missingField)
  else
    match parse_float (pyStrip (pyOr form.planned_budget "")) with
    | .error e => (st, .error e)
    | .ok budget =>
      let created_at := pyStrip (pyOr form.created_at today)
      match findByName st name with
      | some _ => (st, .error .duplicateName)
      | none => (insertProject st name budget created_at, .ok ())

structure AddExpenseForm where
  project_id : Nat
  amount : Option String
  description : Option String
  expense_date : Option String

/-- `BudgetHandler.handle_add_expense` (src lines 372-390).  The
`int(form.get("project_id", "0"))` parse is modelled by taking the integer
directly (a non-numeric id raises before the store is touched). -/
def handle_add_expense (today : String) (st : Store) (form : AddExpenseForm) :
    Store × Except Err Unit :=
  match parse_float (pyStrip (pyOr form.amount "")) with
  | .error e => (st, .error e)
  | .ok amount =>
    let description := pyStrip (pyOr form.description "")
    let expense_date := pyStrip (pyOr form.expense_date today)
    if description = "" then (st, .error .missingField)
    else
      match findById st form.project_id with
      | none => (st, .error .projectNotFound)
      | some _ =>
        (insertExpense st form.project_id amount description expense_date, .ok ())

/-! ### Export -/

/-- The project declaration row emitted by `export_rows`. -/
def projRow (p : Project) : Row :=
  [("Project", p.name), ("Budget", fmt2 p.planned_budget), ("CreatedAt", p.created_at),
   ("ExpenseAmount", ""), ("ExpenseDescription", ""), ("ExpenseDate", "")]

/-- The expense declaration row emitted by `export_rows`. -/
def expRow (name : String) (e : Expense) : Row :=
  [("Project", name), ("Budget", ""), ("CreatedAt", ""),
   ("ExpenseAmount", fmt2 e.amount), ("ExpenseDescription", e.description),
   ("ExpenseDate", e.expense_date)]

/-- Expenses emitted for one project by the export query:
`WHERE project_id = (SELECT id FROM projects WHERE name = ?) ORDER BY id`. -/
def chooseExpenses (P : List Project) (X : List Expense) (nm : String) : List Expense :=
  match findNamed P nm with
  | none => []
  | some q => X.filter (fun e => e.project_id == q.id)

def exportExpensesOf (st : Store) (name : String) : List Expense :=
  chooseExpenses st.projects st.expenses name

/-- `export_rows` (src lines 181-211): for each project in id order one
project row, then one row per expense of that project in id order.  (The
store lists are kept in id order, so `ORDER BY id` is the identity on them.) -/
def export_rows (st : Store) : List Row :=
  st.projects.flatMap (fun p => projRow p :: (exportExpensesOf st p.name).map (expRow p.name))

/-! ### Invariants and reachable stores -/

/-- Referential integrity: every expense's `project_id` is the id of some
project in the store. -/
def NoOrphans (st : Store) : Prop :=
  ∀ e ∈ st.expenses, ∃ p ∈ st.projects, p.id = e.project_id

/-- Well-formedness maintained by every insertion path: names are non-empty,
stripped and unique; monetary values are non-negative; stored text fields are
stripped; descriptions are non-empty; ids are strictly increasing along the
stored lists and below the next `AUTOINCREMENT` key; and referential
integrity holds. -/
structure WF (st : Store) : Prop where
  names_ok : ∀ p ∈ st.projects, p.name ≠ "" ∧ pyStrip p.name = p.name
  names_nodup : (st.projects.map Project.name).Nodup
  proj_ids_lt : ∀ p ∈ st.projects, p.id < st.nextProjectId
  proj_ids_sorted : (st.projects.map Project.id).Pairwise (fun a b => a < b)
  budget_nonneg : ∀ p ∈ st.projects, 0 ≤ p.planned_budget
  created_stripped : ∀ p ∈ st.projects, pyStrip p.created_at = p.created_at
  exp_ids_lt : ∀ e ∈ st.expenses, e.id < st.nextExpenseId
  exp_ids_sorted : (st.expenses.map Expense.id).Pairwise (fun a b => a < b)
  amount_nonneg : ∀ e ∈ st.expenses, 0 ≤ e.amount
  desc_ok : ∀ e ∈ st.expenses, e.description ≠ "" ∧ pyStrip e.description = e.description
  date_stripped : ∀ e ∈ st.expenses, pyStrip e.expense_date = e.expense_date
  no_orphans : NoOrphans st

/-- The stores reachable from a fresh database through the program's insertion
operations. -/
inductive Reachable : Store → Prop where
  | empty : Reachable Store.empty
  | add_project {st : Store} (today : String) (form : AddProjectForm) :
      Reachable st → Reachable (handle_add_project today st form).1
  | add_expense {st : Store} (today : String) (form : AddExpenseForm) :
      Reachable st → Reachable (handle_add_expense today st form).1
  | imported {st : Store} (today : String) (rows : List Row) :
      Reachable st → Reachable (import_rows today st rows).1

/-- All stored dates are non-empty (they can be empty only when an insertion
is fed a whitespace-only date field). -/
def DatesNonEmpty (st : Store) : Prop :=
  (∀ p ∈ st.projects, p.created_at ≠ "") ∧ ∀ e ∈ st.expenses, e.expense_date ≠ ""

instance (st : Store) : Decidable (DatesNonEmpty st) :=
  inferInstanceAs (Decidable ((∀ p ∈ st.projects, p.created_at ≠ "") ∧
    ∀ e ∈ st.expenses, e.expense_date ≠ ""))

instance (st : Store) : Decidable (NoOrphans st) :=
  inferInstanceAs (Decidable (∀ e ∈ st.expenses, ∃ p ∈ st.projects, p.id = e.project_id))

/-! ### The export rows re-imported into a fresh store: building blocks -/

/-- The expenses appended when re-importing the expense rows of one project:
project id `i`, fresh expense ids from `j`, amounts rounded to cents. -/
def attachFrom (i j : Nat) : List Expense → List Expense
  | [] => []
  | e :: es => ⟨j, i, round2 e.amount, e.description, e.expense_date⟩ :: attachFrom i (j + 1) es

/-- Re-import of the expense rows of one project, one insertion at a time. -/
def appendExpenses (s : Store) (i : Nat) : List Expense → Store
  | [] => s
  | e :: es =>
    appendExpenses (insertExpense s i (round2 e.amount) e.description e.expense_date) i es

/-- Re-import of the whole export of `st`, one project block at a time. -/
def buildStore (st : Store) : List Project → Store → Store
  | [], s => s
  | p :: ps, s =>
    buildStore st ps
      (appendExpenses (insertProject s p.name (round2 p.planned_budget) p.created_at)
        s.nextProjectId (exportExpensesOf st p.name))

/-- The projects created by re-importing project rows, with fresh ids from `i`. -/
def newProjects (i : Nat) : List Project → List Project
  | [] => []
  | p :: ps => ⟨i, p.name, round2 p.planned_budget, p.created_at⟩ :: newProjects (i + 1) ps

/-- The expenses created by re-importing the export of `st`, project ids from
`i` and expense ids from `j`. -/
def newExpenses (st : Store) (i j : Nat) : List Project → List Expense
  | [] => []
  | p :: ps =>
    attachFrom i j (exportExpensesOf st p.name) ++
      newExpenses st (i + 1) (j + (exportExpensesOf st p.name).length) ps

/-- Total number of expense rows exported for the given projects. -/
def totalExps (st : Store) : List Project → Nat
  | [] => 0
  | p :: ps => (exportExpensesOf st p.name).length + totalExps st ps

/-- The identifying data of the stored projects, ignoring ids. -/
def projData (st : Store) : List (String × Rat × String) :=
  st.projects.map (fun p => (p.name, p.planned_budget, p.created_at))

/-- The data of the named project's expenses, in stored order, ignoring ids. -/
def expData (st : Store) (name : String) : List (Rat × String × String) :=
  (exportExpensesOf st name).map (fun e => (e.amount, e.description, e.expense_date))

/-- Export→import round trip: importing `export_rows st` into a fresh empty
store reproduces the projects (budgets rounded to 2 decimals) and each
project's expenses (amounts rounded to 2 decimals). -/
def RoundTrips (today : String) (st : Store) : Prop :=
  projData (import_rows today Store.empty (export_rows st)).1 =
      st.projects.map (fun p => (p.name, round2 p.planned_budget, p.created_at)) ∧
    ∀ p ∈ st.projects,
      expData (import_rows today Store.empty (export_rows st)).1 p.name =
        (expData st p.name).map (fun t => (round2 t.1, t.2.1, t.2.2))

/-! ### Concrete stores and rows used by witnesses and counterexamples -/

/-- The two-row import of the spec's worked example. -/
def rowsRoof : List Row :=
  [[("Project", "Roof"), ("Budget", "1000"), ("CreatedAt", "2024-01-01")],
   [("Project", "Roof"), ("ExpenseAmount", "150.5"), ("ExpenseDescription", "Tiles"),
    ("ExpenseDate", "2024-01-02")]]

/-- The store obtained by importing the worked example into a fresh database. -/
def stRoof : Store :=
  (import_rows "2026-10-12" Store.empty rowsRoof).1

/-- A reachable store holding the empty creation date: it is imported from a
row whose `CreatedAt` cell is whitespace-only. -/
def stWsDate : Store :=
  (import_rows "2026-10-12" Store.empty
    [[("Project", "A"), ("Budget", "1"), ("CreatedAt", " ")]]).1

/-- A one-project, one-expense store in which the expense exceeds the budget. -/
def stNeg : Store :=
  ⟨[⟨1, "A", mkRat 1 1, "2024-01-01"⟩], [⟨1, 1, mkRat 2 1, "x", "2024-01-02"⟩], 2, 2⟩

/-- The aggregate view of `stNeg`'s only project: spent 2, remaining -1. -/
def vNeg : ProjView :=
  ⟨1, "A", mkRat 1 1, "2024-01-01", mkRat 2 1, mkRat (-1) 1⟩

/-- A one-project store and a form re-using its name. -/
def stDup : Store := ⟨[⟨1, "A", mkRat 5 1, "2024-01-01"⟩], [], 2, 1⟩

def formDup : AddProjectForm := ⟨some "A", some "2", none⟩

def rowUnknown : Row := [("Project", "X"), ("ExpenseAmount", "5")]

def stKnown : Store := ⟨[⟨1, "B", mkRat 3 1, "2024-01-01"⟩], [], 2, 1⟩

def stOrph : Store := ⟨[⟨1, "C", mkRat 9 1, "2024-01-01"⟩], [], 2, 1⟩

def formOrphExp : AddExpenseForm := ⟨1, some "2", some "materials", some "2024-01-03"⟩

/-! ### The computable rational operations agree with the field operations -/

theorem qadd_eq (a b : Rat) : qadd a b = a + b := by
  have ha : ((a.den : Rat)) ≠ 0 := Nat.cast_ne_zero.mpr a.den_nz
  have hb : ((b.den : Rat)) ≠ 0 := Nat.cast_ne_zero.mpr b.den_nz
  rw [qadd, Rat.mkRat_eq_div]
  conv_rhs => rw [← Rat.num_div_den a, ← Rat.num_div_den b]
  rw [div_add_div _ _ ha hb]
  push_cast
  ring_nf

theorem qsub_eq (a b : Rat) : qsub a b = a - b := by
  have ha : ((a.den : Rat)) ≠ 0 := Nat.cast_ne_zero.mpr a.den_nz
  have hb : ((b.den : Rat)) ≠ 0 := Nat.cast_ne_zero.mpr b.den_nz
  rw [qsub, Rat.mkRat_eq_div]
  conv_rhs => rw [← Rat.num_div_den a, ← Rat.num_div_den b]
  rw [div_sub_div _ _ ha hb]
  push_cast
  ring_nf

theorem qsum_eq (l : List Rat) : qsum l = l.sum := by
  induction l with
  | nil => rfl
  | cons a l ih =>
    rw [qsum, List.foldr_cons, List.sum_cons]
    have : qsum l = l.sum := ih
    rw [← this, qsum, qadd_eq]

theorem natDigitsAux_eq (fuel n : Nat) (h : n ≤ fuel) : natDigitsAux fuel n = Nat.digits 10 n := by
  induction fuel generalizing n with
  | zero =>
    have : n = 0 := Nat.le_zero.mp h
    subst this
    simp [natDigitsAux]
  | succ fuel ih =>
    cases n with
    | zero => simp [natDigitsAux]
    | succ m =>
      have h2 : (m + 1) / 10 < m + 1 := Nat.div_lt_self (Nat.succ_pos m) (by norm_num)
      have h3 : (m + 1) / 10 ≤ fuel := by omega
      rw [natDigitsAux, ih _ h3, Nat.digits_def' (by norm_num : (1 : Nat) < 10) (Nat.succ_pos m)]

theorem natDigits_eq (n : Nat) : natDigits n = Nat.digits 10 n :=
  natDigitsAux_eq n n le_rfl

theorem ratFloor_eq (q : Rat) : Rat.floor q = ⌊q⌋ := by
  rw [Rat.floor_def, Rat.floor_def']

theorem cents_eq (q : Rat) : cents q = ⌊100 * q + 1 / 2⌋ := by
  have hd : ((q.den : Rat)) ≠ 0 := Nat.cast_ne_zero.mpr q.den_nz
  rw [cents, ratFloor_eq, Rat.mkRat_eq_div]
  congr 1
  conv_rhs => rw [← Rat.num_div_den q]
  push_cast
  field_simp
  ring

theorem round2_eq (q : Rat) : round2 q = (cents q : Rat) / 100 := by
  rw [round2, Rat.mkRat_eq_div]
  norm_num

theorem cents_nonneg {q : Rat} (h : 0 ≤ q) : 0 ≤ cents q := by
  rw [cents_eq]
  have : (0 : Rat) ≤ 100 * q + 1 / 2 := by linarith
  exact_mod_cast Int.le_floor.mpr (by exact_mod_cast this)

theorem round2_nonneg {q : Rat} (h : 0 ≤ q) : 0 ≤ round2 q := by
  rw [round2_eq]
  have := cents_nonneg h
  positivity

/-! ### The 2-decimal printer and the float parser are inverse -/

theorem charToDigit_digitToChar {d : Nat} (h : d < 10) :
    charToDigit (digitToChar d) = some d := by
  interval_cases d <;> decide

theorem digitToChar_not_special {d : Nat} (h : d < 10) :
    digitToChar d ≠ '-' ∧ digitToChar d ≠ '+' ∧ (digitToChar d).isWhitespace = false := by
  interval_cases d <;> decide

theorem takeDigits_append (ds : List Nat) (r : List Char)
    (h : ∀ d ∈ ds, d < 10)
    (hr : ∀ c, r.head? = some c → charToDigit c = none) :
    takeDigits (ds.map digitToChar ++ r) = (ds, r) := by
  induction ds with
  | nil =>
    cases r with
    | nil => rfl
    | cons c cs =>
      have := hr c rfl
      simp [takeDigits, this]
  | cons d ds ih =>
    have hd : d < 10 := h d (List.mem_cons_self d ds)
    have ih2 := ih (fun x hx => h x (List.mem_cons_of_mem d hx))
    simp [takeDigits, charToDigit_digitToChar hd, ih2]

theorem foldl_reverse_digits (l : List Nat) (a : Nat) :
    (l.reverse).foldl (fun x d => 10 * x + d) a = a * 10 ^ l.length + Nat.ofDigits 10 l := by
  induction l generalizing a with
  | nil => simp
  | cons d l ih =>
    rw [List.reverse_cons, List.foldl_append, ih]
    simp only [List.foldl_cons, List.foldl_nil, Nat.ofDigits_cons, List.length_cons]
    rw [pow_succ]
    ring

theorem natChars_eq_map (n : Nat) : natChars n = (msdigits n).map digitToChar := by
  by_cases h : n = 0
  · subst h; rfl
  · simp [natChars, msdigits, h]

theorem msdigits_lt (n : Nat) : ∀ d ∈ msdigits n, d < 10 := by
  intro d hd
  by_cases h : n = 0
  · subst h
    simp [msdigits] at hd
    omega
  · simp only [msdigits, if_neg h, List.mem_reverse, natDigits_eq] at hd
    exact Nat.digits_lt_base (by norm_num) hd

theorem digitsVal_msdigits (n : Nat) : digitsVal (msdigits n) = n := by
  by_cases h : n = 0
  · subst h; rfl
  · simp only [msdigits, if_neg h, natDigits_eq, digitsVal]
    rw [foldl_reverse_digits]
    simp [Nat.ofDigits_digits]

theorem msdigits_ne_nil (n : Nat) : msdigits n ≠ [] := by
  by_cases h : n = 0
  · subst h; simp [msdigits]
  · simp only [msdigits, if_neg h, ne_eq, List.reverse_eq_nil_iff, natDigits_eq]
    exact Nat.digits_ne_nil_iff_ne_zero.mpr h

theorem pyFloatAux_decimal (I F : List Nat) (hI : ∀ d ∈ I, d < 10) (hF : ∀ d ∈ F, d < 10)
    (hne : I ≠ []) :
    pyFloatAux (I.map digitToChar ++ '.' :: F.map digitToChar) =
      some (mkRat (digitsVal I * 10 ^ F.length + digitsVal F) (10 ^ F.length)) := by
  have h1 : takeDigits (I.map digitToChar ++ '.' :: F.map digitToChar) =
      (I, '.' :: F.map digitToChar) := by
    apply takeDigits_append I _ hI
    intro c hc
    simp at hc
    subst hc
    rfl
  have h2 : takeDigits (F.map digitToChar) = (F, []) := by
    have h3 := takeDigits_append F [] hF (by intro c hc; simp at hc)
    simpa using h3
  simp only [pyFloatAux, h1, h2]
  simp [hne, List.length_map]

/-- Parsing the `fmt2` rendering of a non-negative rational yields exactly its
2-decimal rounding. -/
theorem pyFloat_fmt2 {q : Rat} (h : 0 ≤ q) : pyFloat (fmt2 q) = some (round2 q) := by
  have hc : 0 ≤ cents q := cents_nonneg h
  have hlt : ¬(cents q < 0) := not_lt.mpr hc
  set a := (cents q).natAbs with ha
  have hF : ∀ d ∈ ([a % 100 / 10, a % 100 % 10] : List Nat), d < 10 := by
    intro d hd
    simp at hd
    rcases hd with h1 | h1 <;> omega
  have hbody : (fmt2 q).data =
      (msdigits (a / 100)).map digitToChar ++
        '.' :: ([a % 100 / 10, a % 100 % 10] : List Nat).map digitToChar := by
    rw [fmt2]
    simp only [← ha, if_neg hlt, natChars_eq_map]
    rfl
  obtain ⟨d0, ds0, hds⟩ : ∃ d0 ds0, msdigits (a / 100) = d0 :: ds0 := by
    cases hh : msdigits (a / 100) with
    | nil => exact absurd hh (msdigits_ne_nil _)
    | cons x xs => exact ⟨x, xs, rfl⟩
  have hd0 : d0 < 10 := msdigits_lt _ d0 (hds ▸ List.mem_cons_self d0 ds0)
  have hspec := digitToChar_not_special hd0
  have haux := pyFloatAux_decimal (msdigits (a / 100)) [a % 100 / 10, a % 100 % 10]
    (msdigits_lt _) hF (msdigits_ne_nil _)
  rw [pyFloat, hbody, hds]
  simp only [List.map_cons, List.cons_append]
  rw [if_neg hspec.1, if_neg hspec.2.1]
  have hform : digitToChar d0 :: (List.map digitToChar ds0 ++
      '.' :: ([a % 100 / 10, a % 100 % 10] : List Nat).map digitToChar) =
      (msdigits (a / 100)).map digitToChar ++
      '.' :: ([a % 100 / 10, a % 100 % 10] : List Nat).map digitToChar := by
    simp [hds]
  simp only [List.map_cons, List.map_nil] at hform haux ⊢
  rw [hform, haux]
  have hval2 : digitsVal [a % 100 / 10, a % 100 % 10] = a % 100 := by
    simp only [digitsVal, List.foldl_cons, List.foldl_nil]
    omega
  have hval1 : digitsVal (msdigits (a / 100)) = a / 100 := digitsVal_msdigits _
  rw [hval1, hval2]
  have hnum : ((a / 100 : Nat) : Int) * 10 ^ (([a % 100 / 10, a % 100 % 10] : List Nat).length) +
      ((a % 100 : Nat) : Int) = (a : Int) := by
    simp only [List.length_cons, List.length_nil]
    norm_num
    omega
  rw [hnum, round2]
  simp only [List.length_cons, List.length_nil]
  norm_num
  rw [ha, Int.natAbs_of_nonneg hc]

theorem parse_float_fmt2 {q : Rat} (h : 0 ≤ q) :
    parse_float (fmt2 q) = .ok (round2 q) := by
  rw [parse_float, pyFloat_fmt2 h]
  simp [not_lt.mpr (round2_nonneg h)]

/-! ### Properties of whitespace stripping -/

theorem dropWhile_eq_self_of {α : Type} (p : α → Bool) (l : List α)
    (h : ∀ c ∈ l, p c = false) : l.dropWhile p = l := by
  cases l with
  | nil => rfl
  | cons a t => rw [List.dropWhile_cons, h a (List.mem_cons_self a t)]; simp

theorem dropWhile_idem {α : Type} (p : α → Bool) (l : List α) :
    (l.dropWhile p).dropWhile p = l.dropWhile p := by
  induction l with
  | nil => rfl
  | cons a t ih =>
    rw [List.dropWhile_cons]
    by_cases hp : p a
    · simp only [if_pos hp]; exact ih
    · simp only [if_neg hp, List.dropWhile_cons, if_neg hp]

theorem dropWhile_suffix {α : Type} (p : α → Bool) (l : List α) : l.dropWhile p <:+ l := by
  induction l with
  | nil => exact List.suffix_rfl
  | cons a t ih =>
    rw [List.dropWhile_cons]
    by_cases hp : p a
    · simp only [if_pos hp]; exact ih.trans (List.suffix_cons a t)
    · simp only [if_neg hp]; exact List.suffix_rfl

theorem reverse_prefix_of_suffix {α : Type} {l1 l2 : List α} (h : l1 <:+ l2) :
    l1.reverse <+: l2.reverse := by
  obtain ⟨u, hu⟩ := h
  exact ⟨u.reverse, by rw [← List.reverse_append, hu]⟩

theorem dropWhile_pres_of_prefix {α : Type} (p : α → Bool) {l1 l2 : List α} (hp : l1 <+: l2)
    (h : l2.dropWhile p = l2) : l1.dropWhile p = l1 := by
  cases l1 with
  | nil => rfl
  | cons a t1 =>
    obtain ⟨u, hu⟩ := hp
    have hws : p a = false := by
      by_contra hcon
      have hpa : p a = true := by simpa using hcon
      rw [← hu, List.cons_append, List.dropWhile_cons, if_pos hpa] at h
      have hle : ((t1 ++ u).dropWhile p).length ≤ (t1 ++ u).length :=
        (dropWhile_suffix p (t1 ++ u)).length_le
      rw [h] at hle
      simp at hle
    rw [List.dropWhile_cons, hws]
    simp

theorem dropWhile_trimRight {p : Char → Bool} {m : List Char} (h : m.dropWhile p = m) :
    ((m.reverse.dropWhile p).reverse).dropWhile p = (m.reverse.dropWhile p).reverse := by
  apply dropWhile_pres_of_prefix p _ h
  have h1 : m.reverse.dropWhile p <:+ m.reverse := dropWhile_suffix p m.reverse
  have h2 := reverse_prefix_of_suffix h1
  rwa [List.reverse_reverse] at h2

theorem stripL_idem (l : List Char) : stripL (stripL l) = stripL l := by
  have h1 : (stripL l).dropWhile Char.isWhitespace = stripL l := by
    rw [stripL]
    exact dropWhile_trimRight (dropWhile_idem _ l)
  conv_lhs => rw [stripL]
  rw [h1]
  simp only [stripL]
  rw [List.reverse_reverse, dropWhile_idem]

theorem pyStrip_idem (s : String) : pyStrip (pyStrip s) = pyStrip s := by
  show (⟨stripL (stripL s.data)⟩ : String) = ⟨stripL s.data⟩
  rw [stripL_idem]

theorem stripL_eq_self {l : List Char} (h : ∀ c ∈ l, c.isWhitespace = false) :
    stripL l = l := by
  rw [stripL, dropWhile_eq_self_of _ _ h, dropWhile_eq_self_of, List.reverse_reverse]
  intro c hc
  exact h c (List.mem_reverse.mp hc)

theorem pyStrip_eq_self {s : String} (h : ∀ c ∈ s.data, c.isWhitespace = false) :
    pyStrip s = s := by
  rw [pyStrip, stripL_eq_self h]

theorem fmt2_no_ws (q : Rat) : ∀ c ∈ (fmt2 q).data, c.isWhitespace = false := by
  intro c hc
  have hbody : ∀ x ∈ (natChars ((cents q).natAbs / 100) ++
      '.' :: [digitToChar ((cents q).natAbs % 100 / 10), digitToChar ((cents q).natAbs % 100 % 10)]),
      x.isWhitespace = false := by
    intro x hx
    rw [natChars_eq_map] at hx
    rcases List.mem_append.mp hx with h1 | h1
    · obtain ⟨d, hd, rfl⟩ := List.mem_map.mp h1
      exact (digitToChar_not_special (msdigits_lt _ d hd)).2.2
    · simp only [List.mem_cons, List.not_mem_nil, or_false] at h1
      rcases h1 with rfl | rfl | rfl
      · decide
      · exact (digitToChar_not_special (by omega : (cents q).natAbs % 100 / 10 < 10)).2.2
      · exact (digitToChar_not_special (by omega : (cents q).natAbs % 100 % 10 < 10)).2.2
  rw [fmt2] at hc
  by_cases h : cents q < 0
  · simp only [if_pos h] at hc
    rcases List.mem_cons.mp hc with rfl | hc2
    · decide
    · exact hbody c hc2
  · simp only [if_neg h] at hc
    exact hbody c hc

theorem pyStrip_fmt2 (q : Rat) : pyStrip (fmt2 q) = fmt2 q :=
  pyStrip_eq_self (fmt2_no_ws q)

theorem fmt2_ne_empty (q : Rat) : fmt2 q ≠ "" := by
  rw [fmt2]
  intro hcon
  by_cases h : cents q < 0
  · simp only [if_pos h] at hcon
    exact absurd (congrArg String.data hcon) (by simp)
  · simp only [if_neg h] at hcon
    have hd := congrArg String.data hcon
    simp only at hd
    have hne := msdigits_ne_nil ((cents q).natAbs / 100)
    rw [natChars_eq_map] at hd
    rcases List.append_eq_nil.mp hd with ⟨h1, h2⟩
    exact hne (List.map_eq_nil_iff.mp h1)

/-! ### Small helper lemmas -/

theorem pyOr_none (b : String) : pyOr none b = b := rfl

theorem pyOr_some_empty (b : String) : pyOr (some "") b = b := by
  simp [pyOr]

theorem pyOr_some_ne {s : String} (h : s ≠ "") (b : String) : pyOr (some s) b = s := by
  rw [pyOr, if_neg h]

theorem pyStrip_empty : pyStrip "" = "" := rfl

theorem parse_float_ok_nonneg {s : String} {q : Rat} (h : parse_float s = .ok q) : 0 ≤ q := by
  rw [parse_float] at h
  cases hp : pyFloat s with
  | none => rw [hp] at h; cases h
  | some v =>
    simp only [hp] at h
    by_cases hv : v < 0
    · rw [if_pos hv] at h; cases h
    · rw [if_neg hv] at h
      cases h
      exact not_lt.mp hv

theorem findByName_none_iff {st : Store} {n : String} :
    findByName st n = none ↔ ∀ p ∈ st.projects, p.name ≠ n := by
  rw [findByName, findNamed, List.find?_eq_none]
  constructor
  · intro h p hp
    have := h p hp
    simpa using this
  · intro h p hp
    simpa using h p hp

theorem findByName_mem {st : Store} {n : String} {p : Project}
    (h : findByName st n = some p) : p ∈ st.projects ∧ p.name = n := by
  rw [findByName, findNamed] at h
  refine ⟨List.mem_of_find?_eq_some h, ?_⟩
  have := List.find?_some h
  simpa using this

theorem findById_mem {st : Store} {i : Nat} {p : Project}
    (h : findById st i = some p) : p ∈ st.projects ∧ p.id = i := by
  rw [findById] at h
  refine ⟨List.mem_of_find?_eq_some h, ?_⟩
  have := List.find?_some h
  simpa using this

/-! ### Case analyses of the import phases -/

theorem budgetPhase_ok_cases {st : Store} {pa : Nat} {name bt ca : String} {st1 : Store}
    {pa1 : Nat} (h : budgetPhase st pa name bt ca = .ok (st1, pa1)) :
    (st1 = st ∧ pa1 = pa) ∨
      ∃ b, parse_float bt = .ok b ∧ findByName st name = none ∧
        st1 = insertProject st name b ca ∧ pa1 = pa + 1 := by
  rw [budgetPhase] at h
  by_cases hbt : bt = ""
  · rw [if_pos hbt] at h
    cases h
    exact .inl ⟨rfl, rfl⟩
  · rw [if_neg hbt] at h
    cases hp : parse_float bt with
    | error e =>
      simp only [hp] at h
      exact Except.noConfusion h
    | ok b =>
      simp only [hp] at h
      cases hf : findByName st name with
      | some p =>
        simp only [hf] at h
        cases h
        exact .inl ⟨rfl, rfl⟩
      | none =>
        simp only [hf] at h
        cases h
        exact .inr ⟨b, rfl, rfl, rfl, rfl⟩

theorem expensePhase_ok_cases {st : Store} {ea : Nat} {name amt ds dt : String} {st1 : Store}
    {ea1 : Nat} (h : expensePhase st ea name amt ds dt = .ok (st1, ea1)) :
    (st1 = st ∧ ea1 = ea) ∨
      ∃ a p, parse_float amt = .ok a ∧ findByName st name = some p ∧
        st1 = insertExpense st p.id a (if ds = "" then "Imported expense" else ds) dt ∧
        ea1 = ea + 1 := by
  rw [expensePhase] at h
  by_cases hat : amt = ""
  · rw [if_pos hat] at h
    cases h
    exact .inl ⟨rfl, rfl⟩
  · rw [if_neg hat] at h
    cases hp : parse_float amt with
    | error e =>
      simp only [hp] at h
      exact Except.noConfusion h
    | ok a =>
      simp only [hp] at h
      cases hf : findByName st name with
      | none =>
        simp only [hf] at h
        cases h
        exact .inl ⟨rfl, rfl⟩
      | some p =>
        simp only [hf] at h
        cases h
        exact .inr ⟨a, p, rfl, rfl, rfl, rfl⟩

theorem importStep_ok_split {today : String} {acc : Store × Nat × Nat} {row : Row}
    {acc2 : Store × Nat × Nat} (h : importStep today acc row = .ok acc2) :
    acc2 = acc ∨
      ∃ st1 pa1 st2 ea1,
        budgetPhase acc.1 acc.2.1 (pyStrip (pyOr (rowGet row "Project") ""))
          (pyStrip (pyOr (rowGet row "Budget") ""))
          (pyStrip (pyOr (rowGet row "CreatedAt") today)) = .ok (st1, pa1) ∧
        expensePhase st1 acc.2.2 (pyStrip (pyOr (rowGet row "Project") ""))
          (pyStrip (pyOr (rowGet row "ExpenseAmount") ""))
          (pyStrip (pyOr (rowGet row "ExpenseDescription") ""))
          (pyStrip (pyOr (rowGet row "ExpenseDate") today)) = .ok (st2, ea1) ∧
        acc2 = (st2, pa1, ea1) := by
  simp only [importStep] at h
  by_cases hn : pyStrip (pyOr (rowGet row "Project") "") = ""
  · rw [if_pos hn] at h
    cases h
    exact .inl rfl
  · rw [if_neg hn] at h
    cases hb : budgetPhase acc.1 acc.2.1 (pyStrip (pyOr (rowGet row "Project") ""))
        (pyStrip (pyOr (rowGet row "Budget") ""))
        (pyStrip (pyOr (rowGet row "CreatedAt") today)) with
    | error e =>
      simp only [hb] at h
      exact Except.noConfusion h
    | ok pr =>
      obtain ⟨st1, pa1⟩ := pr
      simp only [hb] at h
      cases he : expensePhase st1 acc.2.2 (pyStrip (pyOr (rowGet row "Project") ""))
          (pyStrip (pyOr (rowGet row "ExpenseAmount") ""))
          (pyStrip (pyOr (rowGet row "ExpenseDescription") ""))
          (pyStrip (pyOr (rowGet row "ExpenseDate") today)) with
      | error e =>
        simp only [he] at h
        exact Except.noConfusion h
      | ok pr2 =>
        obtain ⟨st2, ea1⟩ := pr2
        simp only [he] at h
        cases h
        exact .inr ⟨st1, pa1, st2, ea1, rfl, he, rfl⟩

/-! ### Referential integrity is preserved by every insertion path -/

theorem insertProject_noOrphans {st : Store} {n : String} {b : Rat} {c : String}
    (h : NoOrphans st) : NoOrphans (insertProject st n b c) := by
  intro e he
  obtain ⟨p, hp, hid⟩ := h e he
  exact ⟨p, List.mem_append_left _ hp, hid⟩

theorem insertExpense_noOrphans {st : Store} {pid : Nat} {a : Rat} {d dt : String}
    (h : NoOrphans st) (hex : ∃ p ∈ st.projects, p.id = pid) :
    NoOrphans (insertExpense st pid a d dt) := by
  intro e he
  simp only [insertExpense, List.mem_append] at he
  rcases he with he | he
  · exact h e he
  · simp only [List.mem_singleton] at he
    subst he
    exact hex

theorem budgetPhase_noOrphans {st : Store} {pa : Nat} {name bt ca : String} {st1 : Store}
    {pa1 : Nat} (h : budgetPhase st pa name bt ca = .ok (st1, pa1)) (ho : NoOrphans st) :
    NoOrphans st1 := by
  rcases budgetPhase_ok_cases h with ⟨rfl, -⟩ | ⟨b, -, -, rfl, -⟩
  · exact ho
  · exact insertProject_noOrphans ho

theorem budgetPhase_projects_prefix {st : Store} {pa : Nat} {name bt ca : String} {st1 : Store}
    {pa1 : Nat} (h : budgetPhase st pa name bt ca = .ok (st1, pa1)) :
    st.projects <+: st1.projects := by
  rcases budgetPhase_ok_cases h with ⟨rfl, -⟩ | ⟨b, -, -, rfl, -⟩
  · exact List.prefix_rfl
  · exact ⟨_, rfl⟩

theorem expensePhase_noOrphans {st : Store} {ea : Nat} {name amt ds dt : String} {st1 : Store}
    {ea1 : Nat} (h : expensePhase st ea name amt ds dt = .ok (st1, ea1)) (ho : NoOrphans st) :
    NoOrphans st1 := by
  rcases expensePhase_ok_cases h with ⟨rfl, -⟩ | ⟨a, p, -, hf, rfl, -⟩
  · exact ho
  · exact insertExpense_noOrphans ho ⟨p, (findByName_mem hf).1, rfl⟩

theorem importStep_noOrphans {today : String} {acc acc2 : Store × Nat × Nat} {row : Row}
    (h : importStep today acc row = .ok acc2) (ho : NoOrphans acc.1) : NoOrphans acc2.1 := by
  rcases importStep_ok_split h with rfl | ⟨st1, pa1, st2, ea1, hb, he, rfl⟩
  · exact ho
  · exact expensePhase_noOrphans he (budgetPhase_noOrphans hb ho)

theorem importLoop_noOrphans {today : String} :
    ∀ {rows : List Row} {acc acc2 : Store × Nat × Nat}, NoOrphans acc.1 →
      importLoop today acc rows = .ok acc2 → NoOrphans acc2.1 := by
  intro rows
  induction rows with
  | nil =>
    intro acc acc2 ho h
    cases h
    exact ho
  | cons r rs ih =>
    intro acc acc2 ho h
    rw [importLoop] at h
    cases hs : importStep today acc r with
    | error e =>
      simp only [hs] at h
      exact Except.noConfusion h
    | ok acc3 =>
      simp only [hs] at h
      exact ih (importStep_noOrphans hs ho) h

theorem import_rows_noOrphans {today : String} {st : Store} {rows : List Row}
    (h : NoOrphans st) : NoOrphans (import_rows today st rows).1 := by
  rw [import_rows]
  cases hl : importLoop today (st, 0, 0) rows with
  | ok acc2 =>
    obtain ⟨st2, pa, ea⟩ := acc2
    exact importLoop_noOrphans h hl
  | error e => exact h

theorem handle_add_project_noOrphans {today : String} {st : Store} {form : AddProjectForm}
    (h : NoOrphans st) : NoOrphans (handle_add_project today st form).1 := by
  simp only [handle_add_project]
  split
  · exact h
  · split
    · exact h
    · split
      · exact h
      · exact insertProject_noOrphans h

theorem handle_add_expense_noOrphans {today : String} {st : Store} {form : AddExpenseForm}
    (h : NoOrphans st) : NoOrphans (handle_add_expense today st form).1 := by
  simp only [handle_add_expense]
  split
  · exact h
  · split
    · exact h
    · split
      · exact h
      · next p hp =>
        exact insertExpense_noOrphans h ⟨p, (findById_mem hp).1, (findById_mem hp).2⟩

/-! ### Well-formedness is established by every insertion path -/

theorem WF_empty : WF Store.empty := by
  constructor <;> simp [Store.empty, NoOrphans]

theorem insertProject_WF {st : Store} {n : String} {b : Rat} {c : String} (hwf : WF st)
    (hn : n ≠ "") (hns : pyStrip n = n) (hf : findByName st n = none) (hb : 0 ≤ b)
    (hcs : pyStrip c = c) : WF (insertProject st n b c) := by
  have hnotin : ∀ p ∈ st.projects, p.name ≠ n := findByName_none_iff.mp hf
  constructor
  · intro p hp
    rcases List.mem_append.mp hp with hp | hp
    · exact hwf.names_ok p hp
    · simp only [List.mem_singleton] at hp
      subst hp
      exact ⟨hn, hns⟩
  · simp only [insertProject, List.map_append, List.map_cons, List.map_nil]
    rw [List.nodup_append]
    refine ⟨hwf.names_nodup, List.nodup_singleton _, ?_⟩
    intro a ha hb2
    simp only [List.mem_singleton] at hb2
    subst hb2
    obtain ⟨p, hp, hpn⟩ := List.mem_map.mp ha
    exact hnotin p hp hpn
  · intro p hp
    rcases List.mem_append.mp hp with hp | hp
    · exact Nat.lt_succ_of_lt (hwf.proj_ids_lt p hp)
    · simp only [List.mem_singleton] at hp
      subst hp
      exact Nat.lt_succ_self _
  · simp only [insertProject, List.map_append, List.map_cons, List.map_nil]
    rw [List.pairwise_append]
    refine ⟨hwf.proj_ids_sorted, List.pairwise_singleton _ _, ?_⟩
    intro a ha i hi
    simp only [List.mem_singleton] at hi
    subst hi
    obtain ⟨p, hp, hpi⟩ := List.mem_map.mp ha
    rw [← hpi]
    exact hwf.proj_ids_lt p hp
  · intro p hp
    rcases List.mem_append.mp hp with hp | hp
    · exact hwf.budget_nonneg p hp
    · simp only [List.mem_singleton] at hp
      subst hp
      exact hb
  · intro p hp
    rcases List.mem_append.mp hp with hp | hp
    · exact hwf.created_stripped p hp
    · simp only [List.mem_singleton] at hp
      subst hp
      exact hcs
  · exact hwf.exp_ids_lt
  · exact hwf.exp_ids_sorted
  · exact hwf.amount_nonneg
  · exact hwf.desc_ok
  · exact hwf.date_stripped
  · exact insertProject_noOrphans hwf.no_orphans

theorem insertExpense_WF {st : Store} {pid : Nat} {a : Rat} {d dt : String} (hwf : WF st)
    (hex : ∃ p ∈ st.projects, p.id = pid) (ha : 0 ≤ a) (hd : d ≠ "") (hds : pyStrip d = d)
    (hdt : pyStrip dt = dt) : WF (insertExpense st pid a d dt) := by
  constructor
  · exact hwf.names_ok
  · exact hwf.names_nodup
  · exact hwf.proj_ids_lt
  · exact hwf.proj_ids_sorted
  · exact hwf.budget_nonneg
  · exact hwf.created_stripped
  · intro e he
    rcases List.mem_append.mp he with he | he
    · exact Nat.lt_succ_of_lt (hwf.exp_ids_lt e he)
    · simp only [List.mem_singleton] at he
      subst he
      exact Nat.lt_succ_self _
  · simp only [insertExpense, List.map_append, List.map_cons, List.map_nil]
    rw [List.pairwise_append]
    refine ⟨hwf.exp_ids_sorted, List.pairwise_singleton _ _, ?_⟩
    intro x hx i hi
    simp only [List.mem_singleton] at hi
    subst hi
    obtain ⟨e, he, hei⟩ := List.mem_map.mp hx
    rw [← hei]
    exact hwf.exp_ids_lt e he
  · intro e he
    rcases List.mem_append.mp he with he | he
    · exact hwf.amount_nonneg e he
    · simp only [List.mem_singleton] at he
      subst he
      exact ha
  · intro e he
    rcases List.mem_append.mp he with he | he
    · exact hwf.desc_ok e he
    · simp only [List.mem_singleton] at he
      subst he
      exact ⟨hd, hds⟩
  · intro e he
    rcases List.mem_append.mp he with he | he
    · exact hwf.date_stripped e he
    · simp only [List.mem_singleton] at he
      subst he
      exact hdt
  · exact insertExpense_noOrphans hwf.no_orphans hex

theorem budgetPhase_WF {st : Store} {pa : Nat} {name bt ca : String} {st1 : Store} {pa1 : Nat}
    (h : budgetPhase st pa name bt ca = .ok (st1, pa1)) (hwf : WF st) (hn : name ≠ "")
    (hns : pyStrip name = name) (hcs : pyStrip ca = ca) : WF st1 := by
  rcases budgetPhase_ok_cases h with ⟨rfl, -⟩ | ⟨b, hp, hf, rfl, -⟩
  · exact hwf
  · exact insertProject_WF hwf hn hns hf (parse_float_ok_nonneg hp) hcs

theorem expensePhase_WF {st : Store} {ea : Nat} {name amt ds dt : String} {st1 : Store}
    {ea1 : Nat} (h : expensePhase st ea name amt ds dt = .ok (st1, ea1)) (hwf : WF st)
    (hds : pyStrip ds = ds) (hdt : pyStrip dt = dt) : WF st1 := by
  rcases expensePhase_ok_cases h with ⟨rfl, -⟩ | ⟨a, p, hp, hf, rfl, -⟩
  · exact hwf
  · apply insertExpense_WF hwf ⟨p, (findByName_mem hf).1, rfl⟩ (parse_float_ok_nonneg hp)
    · by_cases hd : ds = ""
      · rw [if_pos hd]; decide
      · rw [if_neg hd]; exact hd
    · by_cases hd : ds = ""
      · rw [if_pos hd]; decide
      · rw [if_neg hd]; exact hds
    · exact hdt

theorem importStep_WF {today : String} {acc acc2 : Store × Nat × Nat} {row : Row}
    (h : importStep today acc row = .ok acc2) (hwf : WF acc.1) : WF acc2.1 := by
  rcases importStep_ok_split h with rfl | ⟨st1, pa1, st2, ea1, hb, he, rfl⟩
  · exact hwf
  · by_cases hn : pyStrip (pyOr (rowGet row "Project") "") = ""
    · simp only [importStep, if_pos hn] at h
      cases h
      exact hwf
    · have h1 := budgetPhase_WF hb hwf hn (pyStrip_idem _) (pyStrip_idem _)
      exact expensePhase_WF he h1 (pyStrip_idem _) (pyStrip_idem _)

theorem importLoop_WF {today : String} :
    ∀ {rows : List Row} {acc acc2 : Store × Nat × Nat}, WF acc.1 →
      importLoop today acc rows = .ok acc2 → WF acc2.1 := by
  intro rows
  induction rows with
  | nil =>
    intro acc acc2 hwf h
    cases h
    exact hwf
  | cons r rs ih =>
    intro acc acc2 hwf h
    rw [importLoop] at h
    cases hs : importStep today acc r with
    | error e =>
      simp only [hs] at h
      exact Except.noConfusion h
    | ok acc3 =>
      simp only [hs] at h
      exact ih (importStep_WF hs hwf) h

theorem import_rows_WF {today : String} {st : Store} {rows : List Row} (hwf : WF st) :
    WF (import_rows today st rows).1 := by
  rw [import_rows]
  cases hl : importLoop today (st, 0, 0) rows with
  | ok acc2 =>
    obtain ⟨st2, pa, ea⟩ := acc2
    exact importLoop_WF hwf hl
  | error e => exact hwf

theorem handle_add_project_store_cases (today : String) (st : Store) (form : AddProjectForm) :
    (handle_add_project today st form).1 = st ∨
      ∃ b, parse_float (pyStrip (pyOr form.planned_budget "")) = .ok b ∧
        pyStrip (pyOr form.name "") ≠ "" ∧
        findByName st (pyStrip (pyOr form.name "")) = none ∧
        (handle_add_project today st form).1 =
          insertProject st (pyStrip (pyOr form.name "")) b
            (pyStrip (pyOr form.created_at today)) := by
  simp only [handle_add_project]
  by_cases hn : pyStrip (pyOr form.name "") = ""
  · rw [if_pos hn]
    exact .inl rfl
  · rw [if_neg hn]
    cases hp : parse_float (pyStrip (pyOr form.planned_budget "")) with
    | error e => exact .inl rfl
    | ok b =>
      cases hf : findByName st (pyStrip (pyOr form.name "")) with
      | some p => exact .inl rfl
      | none => exact .inr ⟨b, rfl, hn, rfl, rfl⟩

theorem handle_add_expense_store_cases (today : String) (st : Store) (form : AddExpenseForm) :
    (handle_add_expense today st form).1 = st ∨
      ∃ a p, parse_float (pyStrip (pyOr form.amount "")) = .ok a ∧
        pyStrip (pyOr form.description "") ≠ "" ∧
        findById st form.project_id = some p ∧
        (handle_add_expense today st form).1 =
          insertExpense st form.project_id a (pyStrip (pyOr form.description ""))
            (pyStrip (pyOr form.expense_date today)) := by
  simp only [handle_add_expense]
  cases hp : parse_float (pyStrip (pyOr form.amount "")) with
  | error e => exact .inl rfl
  | ok a =>
    dsimp only
    by_cases hd : pyStrip (pyOr form.description "") = ""
    · rw [if_pos hd]
      exact .inl rfl
    · rw [if_neg hd]
      cases hf : findById st form.project_id with
      | none => exact .inl rfl
      | some p => exact .inr ⟨a, p, rfl, hd, rfl, rfl⟩

theorem handle_add_project_WF {today : String} {st : Store} {form : AddProjectForm}
    (hwf : WF st) : WF (handle_add_project today st form).1 := by
  rcases handle_add_project_store_cases today st form with h | ⟨b, hp, hn, hf, h⟩
  · rw [h]; exact hwf
  · rw [h]
    exact insertProject_WF hwf hn (pyStrip_idem _) hf (parse_float_ok_nonneg hp) (pyStrip_idem _)

theorem handle_add_expense_WF {today : String} {st : Store} {form : AddExpenseForm}
    (hwf : WF st) : WF (handle_add_expense today st form).1 := by
  rcases handle_add_expense_store_cases today st form with h | ⟨a, p, hp, hd, hf, h⟩
  · rw [h]; exact hwf
  · rw [h]
    exact insertExpense_WF hwf ⟨p, (findById_mem hf).1, (findById_mem hf).2⟩
      (parse_float_ok_nonneg hp) hd (pyStrip_idem _) (pyStrip_idem _)

/-- Every reachable store is well-formed. -/
theorem Reachable.wf {st : Store} (h : Reachable st) : WF st := by
  induction h with
  | empty => exact WF_empty
  | add_project today form _ ih => exact handle_add_project_WF ih
  | add_expense today form _ ih => exact handle_add_expense_WF ih
  | imported today rows _ ih => exact import_rows_WF ih

/-! ### Stepping the import loop over export rows -/

theorem importLoop_append (today : String) (acc : Store × Nat × Nat) (l1 l2 : List Row) :
    importLoop today acc (l1 ++ l2) =
      match importLoop today acc l1 with
      | .ok acc2 => importLoop today acc2 l2
      | .error e => .error e := by
  induction l1 generalizing acc with
  | nil => rfl
  | cons r rs ih =>
    rw [List.cons_append, importLoop, importLoop]
    cases importStep today acc r with
    | error e => rfl
    | ok acc2 => exact ih acc2

theorem budgetPhase_empty (st : Store) (pa : Nat) (name ca : String) :
    budgetPhase st pa name "" ca = .ok (st, pa) := by
  rw [budgetPhase, if_pos rfl]

theorem expensePhase_empty (st : Store) (ea : Nat) (name ds dt : String) :
    expensePhase st ea name "" ds dt = .ok (st, ea) := by
  rw [expensePhase, if_pos rfl]

theorem findNamed_append (P1 P2 : List Project) (nm : String) :
    findNamed (P1 ++ P2) nm =
      match findNamed P1 nm with
      | some q => some q
      | none => findNamed P2 nm := by
  rw [findNamed, List.find?_append]
  cases hf : findNamed P1 nm with
  | some q =>
    rw [findNamed] at hf
    rw [hf]
    rfl
  | none =>
    rw [findNamed] at hf
    rw [hf]
    rfl

theorem findByName_insertProject_ne {s : Store} {n : String} {b : Rat} {c nm : String}
    (h : nm ≠ n) : findByName (insertProject s n b c) nm = findByName s nm := by
  rw [findByName, insertProject]
  show findNamed (s.projects ++ [⟨s.nextProjectId, n, b, c⟩]) nm = findByName s nm
  rw [findNamed_append]
  cases hf : findNamed s.projects nm with
  | some q => rw [findByName, hf]
  | none =>
    rw [findByName, hf, findNamed]
    dsimp only
    have hb2 : ((n == nm) = false) := beq_eq_false_iff_ne.mpr (Ne.symm h)
    rw [List.find?_cons]
    simp [hb2]

theorem findByName_insertProject_self {s : Store} {n : String} {b : Rat} {c : String}
    (hf : findByName s n = none) :
    findByName (insertProject s n b c) n = some ⟨s.nextProjectId, n, b, c⟩ := by
  rw [findByName, insertProject]
  show findNamed (s.projects ++ [⟨s.nextProjectId, n, b, c⟩]) n = _
  rw [findNamed_append]
  rw [findByName] at hf
  rw [hf, findNamed]
  dsimp only
  rw [List.find?_cons]
  simp

theorem findByName_insertExpense (s : Store) (pid : Nat) (a : Rat) (d dt nm : String) :
    findByName (insertExpense s pid a d dt) nm = findByName s nm := rfl

theorem appendExpenses_spec (i : Nat) :
    ∀ (es : List Expense) (s : Store),
      (appendExpenses s i es).projects = s.projects ∧
      (appendExpenses s i es).expenses = s.expenses ++ attachFrom i s.nextExpenseId es ∧
      (appendExpenses s i es).nextProjectId = s.nextProjectId ∧
      (appendExpenses s i es).nextExpenseId = s.nextExpenseId + es.length := by
  intro es
  induction es with
  | nil =>
    intro s
    simp [appendExpenses, attachFrom]
  | cons e es ih =>
    intro s
    rw [appendExpenses]
    obtain ⟨h1, h2, h3, h4⟩ := ih (insertExpense s i (round2 e.amount) e.description e.expense_date)
    refine ⟨h1, ?_, h3, ?_⟩
    · rw [h2]
      show s.expenses ++ [_] ++ _ = _
      rw [List.append_assoc]
      rfl
    · rw [h4]
      show s.nextExpenseId + 1 + es.length = _
      rw [List.length_cons]
      omega

theorem findByName_appendExpenses (s : Store) (i : Nat) (es : List Expense) (nm : String) :
    findByName (appendExpenses s i es) nm = findByName s nm := by
  rw [findByName, findByName, (appendExpenses_spec i es s).1]

/-- Re-importing a project row creates the project with its budget rounded to
two decimals and its original (non-empty) creation date. -/
theorem importStep_projRow {today : String} {s : Store} {pa ea : Nat} {p : Project}
    (hn : p.name ≠ "") (hns : pyStrip p.name = p.name) (hf : findByName s p.name = none)
    (hb : 0 ≤ p.planned_budget) (hca : pyStrip p.created_at = p.created_at)
    (hcane : p.created_at ≠ "") :
    importStep today (s, pa, ea) (projRow p) =
      .ok (insertProject s p.name (round2 p.planned_budget) p.created_at, pa + 1, ea) := by
  have r1 : rowGet (projRow p) "Project" = some p.name := rfl
  have r2 : rowGet (projRow p) "Budget" = some (fmt2 p.planned_budget) := rfl
  have r3 : rowGet (projRow p) "CreatedAt" = some p.created_at := rfl
  have r4 : rowGet (projRow p) "ExpenseAmount" = some "" := rfl
  have hbp : budgetPhase s pa p.name (fmt2 p.planned_budget) p.created_at =
      .ok (insertProject s p.name (round2 p.planned_budget) p.created_at, pa + 1) := by
    rw [budgetPhase, if_neg (fmt2_ne_empty _)]
    simp only [parse_float_fmt2 hb, hf]
  simp only [importStep, r1, r2, r3, r4, pyOr_some_ne hn, pyOr_some_empty, pyStrip_empty,
    hns, pyOr_some_ne (fmt2_ne_empty p.planned_budget), pyStrip_fmt2,
    pyOr_some_ne hcane, hca, if_neg hn, hbp, expensePhase_empty]

/-- Re-importing an expense row of an existing project inserts the expense
with its amount rounded to two decimals, its original (non-empty, stripped)
description and its original (non-empty, stripped) date. -/
theorem importStep_expRow {today : String} {s : Store} {pa ea : Nat} {nm : String}
    {e : Expense} {q : Project} (hn : nm ≠ "") (hns : pyStrip nm = nm)
    (hf : findByName s nm = some q) (ha : 0 ≤ e.amount) (hd : e.description ≠ "")
    (hds : pyStrip e.description = e.description)
    (hdt : pyStrip e.expense_date = e.expense_date) (hdne : e.expense_date ≠ "") :
    importStep today (s, pa, ea) (expRow nm e) =
      .ok (insertExpense s q.id (round2 e.amount) e.description e.expense_date, pa, ea + 1) := by
  have r1 : rowGet (expRow nm e) "Project" = some nm := rfl
  have r2 : rowGet (expRow nm e) "Budget" = some "" := rfl
  have r3 : rowGet (expRow nm e) "ExpenseAmount" = some (fmt2 e.amount) := rfl
  have r4 : rowGet (expRow nm e) "ExpenseDescription" = some e.description := rfl
  have r5 : rowGet (expRow nm e) "ExpenseDate" = some e.expense_date := rfl
  have hep : expensePhase s ea nm (fmt2 e.amount) e.description e.expense_date =
      .ok (insertExpense s q.id (round2 e.amount) e.description e.expense_date, ea + 1) := by
    rw [expensePhase, if_neg (fmt2_ne_empty _)]
    simp only [parse_float_fmt2 ha, hf, if_neg hd]
  simp only [importStep, r1, r2, r3, r4, r5, pyOr_some_ne hn, hns, if_neg hn,
    pyOr_some_empty, pyStrip_empty, budgetPhase_empty,
    pyOr_some_ne (fmt2_ne_empty e.amount), pyStrip_fmt2,
    pyOr_some_ne hd, hds, pyOr_some_ne hdne, hdt, hep]

/-- Re-importing the exported expense rows of one project appends all of them
to the store, with the project id found for the name. -/
theorem importLoop_expRows {today : String} {nm : String} {q : Project} (hn : nm ≠ "")
    (hns : pyStrip nm = nm) :
    ∀ (es : List Expense) (s : Store) (pa ea : Nat), findByName s nm = some q →
      (∀ e ∈ es, 0 ≤ e.amount ∧ e.description ≠ "" ∧ pyStrip e.description = e.description ∧
        pyStrip e.expense_date = e.expense_date ∧ e.expense_date ≠ "") →
      importLoop today (s, pa, ea) (es.map (expRow nm)) =
        .ok (appendExpenses s q.id es, pa, ea + es.length) := by
  intro es
  induction es with
  | nil =>
    intro s pa ea hf hprops
    simp [importLoop, appendExpenses]
  | cons e es ih =>
    intro s pa ea hf hprops
    obtain ⟨ha, hd, hds, hdt, hdne⟩ := hprops e (List.mem_cons_self e es)
    rw [List.map_cons, importLoop]
    rw [importStep_expRow hn hns hf ha hd hds hdt hdne]
    dsimp only
    have hf2 : findByName (insertExpense s q.id (round2 e.amount) e.description e.expense_date)
        nm = some q := hf
    have hrec := ih (insertExpense s q.id (round2 e.amount) e.description e.expense_date)
      pa (ea + 1) hf2 (fun x hx => hprops x (List.mem_cons_of_mem _ hx))
    rw [hrec, appendExpenses, List.length_cons]
    have harith : ea + 1 + es.length = ea + (es.length + 1) := by omega
    rw [harith]

/-- Re-importing the full export of a well-formed store `st` (with non-empty
dates) into any store where none of the exported names exist creates exactly
the `buildStore` result. -/
theorem importLoop_export (today : String) {st : Store} (hwf : WF st) (hd : DatesNonEmpty st) :
    ∀ (ps : List Project) (s : Store) (pa ea : Nat),
      (∀ p ∈ ps, p ∈ st.projects) →
      (ps.map Project.name).Nodup →
      (∀ p ∈ ps, findByName s p.name = none) →
      importLoop today (s, pa, ea)
          (ps.flatMap (fun p => projRow p :: (exportExpensesOf st p.name).map (expRow p.name))) =
        .ok (buildStore st ps s, pa + ps.length, ea + totalExps st ps) := by
  intro ps
  induction ps with
  | nil =>
    intro s pa ea _ _ _
    simp [importLoop, buildStore, totalExps]
  | cons p ps ih =>
    intro s pa ea hmem hnodup hnone
    have hpmem : p ∈ st.projects := hmem p (List.mem_cons_self p ps)
    have hn : p.name ≠ "" := (hwf.names_ok p hpmem).1
    have hns : pyStrip p.name = p.name := (hwf.names_ok p hpmem).2
    have hb : 0 ≤ p.planned_budget := hwf.budget_nonneg p hpmem
    have hca : pyStrip p.created_at = p.created_at := hwf.created_stripped p hpmem
    have hcane : p.created_at ≠ "" := hd.1 p hpmem
    have hfp : findByName s p.name = none := hnone p (List.mem_cons_self p ps)
    have hprops : ∀ e ∈ exportExpensesOf st p.name, 0 ≤ e.amount ∧ e.description ≠ "" ∧
        pyStrip e.description = e.description ∧ pyStrip e.expense_date = e.expense_date ∧
        e.expense_date ≠ "" := by
      intro e he
      have hest : e ∈ st.expenses := by
        rw [exportExpensesOf, chooseExpenses] at he
        cases hx : findNamed st.projects p.name with
        | none =>
          rw [hx] at he
          exact absurd he (List.not_mem_nil e)
        | some q =>
          rw [hx] at he
          exact (List.mem_filter.mp he).1
      exact ⟨hwf.amount_nonneg e hest, (hwf.desc_ok e hest).1, (hwf.desc_ok e hest).2,
        hwf.date_stripped e hest, hd.2 e hest⟩
    have hfind1 : findByName (insertProject s p.name (round2 p.planned_budget) p.created_at)
        p.name = some ⟨s.nextProjectId, p.name, round2 p.planned_budget, p.created_at⟩ :=
      findByName_insertProject_self hfp
    rw [List.flatMap_cons, List.cons_append, importLoop,
      importStep_projRow hn hns hfp hb hca hcane]
    dsimp only
    rw [importLoop_append,
      importLoop_expRows hn hns (exportExpensesOf st p.name) _ _ _ hfind1 hprops]
    dsimp only
    have hpnotin : p.name ∉ ps.map Project.name := by
      have := hnodup
      rw [List.map_cons, List.nodup_cons] at this
      exact this.1
    have hnone2 : ∀ x ∈ ps,
        findByName (appendExpenses
          (insertProject s p.name (round2 p.planned_budget) p.created_at)
          s.nextProjectId (exportExpensesOf st p.name)) x.name = none := by
      intro x hx
      have hneq : x.name ≠ p.name := by
        intro hc
        exact hpnotin (hc ▸ List.mem_map_of_mem Project.name hx)
      rw [findByName_appendExpenses, findByName_insertProject_ne hneq]
      exact hnone x (List.mem_cons_of_mem _ hx)
    have hnodup2 : (ps.map Project.name).Nodup := by
      have := hnodup
      rw [List.map_cons, List.nodup_cons] at this
      exact this.2
    rw [ih (appendExpenses (insertProject s p.name (round2 p.planned_budget) p.created_at)
        s.nextProjectId (exportExpensesOf st p.name)) (pa + 1)
        (ea + (exportExpensesOf st p.name).length)
        (fun x hx => hmem x (List.mem_cons_of_mem _ hx)) hnodup2 hnone2]
    rw [buildStore, List.length_cons, totalExps]
    have h1 : pa + 1 + ps.length = pa + (ps.length + 1) := by omega
    have h2 : ea + (exportExpensesOf st p.name).length + totalExps st ps =
        ea + ((exportExpensesOf st p.name).length + totalExps st ps) := by omega
    rw [h1, h2]

/-- Importing the export of a well-formed store into a fresh empty store. -/
theorem export_import (today : String) {st : Store} (hwf : WF st) (hd : DatesNonEmpty st) :
    import_rows today Store.empty (export_rows st) =
      (buildStore st st.projects Store.empty,
        .ok (st.projects.length, totalExps st st.projects)) := by
  rw [import_rows, export_rows]
  rw [importLoop_export today hwf hd st.projects Store.empty 0 0 (fun p hp => hp)
    hwf.names_nodup (fun p hp => rfl)]
  simp

theorem buildStore_spec (st : Store) :
    ∀ (ps : List Project) (s : Store),
      (buildStore st ps s).projects = s.projects ++ newProjects s.nextProjectId ps ∧
      (buildStore st ps s).expenses =
        s.expenses ++ newExpenses st s.nextProjectId s.nextExpenseId ps := by
  intro ps
  induction ps with
  | nil =>
    intro s
    simp [buildStore, newProjects, newExpenses]
  | cons p ps ih =>
    intro s
    rw [buildStore]
    obtain ⟨a1, a2, a3, a4⟩ := appendExpenses_spec s.nextProjectId (exportExpensesOf st p.name)
      (insertProject s p.name (round2 p.planned_budget) p.created_at)
    obtain ⟨b1, b2⟩ := ih (appendExpenses
      (insertProject s p.name (round2 p.planned_budget) p.created_at)
      s.nextProjectId (exportExpensesOf st p.name))
    constructor
    · rw [b1, a1, a3]
      rw [newProjects]
      show (s.projects ++ [_]) ++ _ = _
      rw [List.append_assoc]
      rfl
    · rw [b2, a2, a3, a4]
      rw [newExpenses]
      show (s.expenses ++ _) ++ _ = _
      rw [List.append_assoc]
      rfl

theorem newProjects_data : ∀ (ps : List Project) (i : Nat),
    (newProjects i ps).map (fun p => (p.name, p.planned_budget, p.created_at)) =
      ps.map (fun p => (p.name, round2 p.planned_budget, p.created_at)) := by
  intro ps
  induction ps with
  | nil => intro i; rfl
  | cons p ps ih =>
    intro i
    rw [newProjects, List.map_cons, List.map_cons, ih]

theorem attachFrom_data (i : Nat) : ∀ (es : List Expense) (j : Nat),
    (attachFrom i j es).map (fun e => (e.amount, e.description, e.expense_date)) =
      es.map (fun e => (round2 e.amount, e.description, e.expense_date)) := by
  intro es
  induction es with
  | nil => intro j; rfl
  | cons e es ih =>
    intro j
    rw [attachFrom, List.map_cons, List.map_cons, ih]

theorem attachFrom_filter_self (i : Nat) : ∀ (es : List Expense) (j : Nat),
    (attachFrom i j es).filter (fun e => e.project_id == i) = attachFrom i j es := by
  intro es
  induction es with
  | nil => intro j; rfl
  | cons e es ih =>
    intro j
    rw [attachFrom, List.filter_cons]
    simp only [beq_self_eq_true, if_true]
    rw [ih]

theorem attachFrom_filter_ne {i t : Nat} (h : t ≠ i) : ∀ (es : List Expense) (j : Nat),
    (attachFrom i j es).filter (fun e => e.project_id == t) = [] := by
  intro es
  induction es with
  | nil => intro j; rfl
  | cons e es ih =>
    intro j
    rw [attachFrom, List.filter_cons]
    have hb : ((⟨j, i, round2 e.amount, e.description, e.expense_date⟩ :
        Expense).project_id == t) = false := by
      simp only [beq_eq_false_iff_ne]
      exact fun hc => h (hc.symm)
    rw [hb]
    simp only [Bool.false_eq_true, if_false]
    exact ih (j + 1)

theorem newExpenses_filter_lt (st : Store) : ∀ (ps : List Project) (i j t : Nat), t < i →
    (newExpenses st i j ps).filter (fun e => e.project_id == t) = [] := by
  intro ps
  induction ps with
  | nil => intro i j t ht; rfl
  | cons p ps ih =>
    intro i j t ht
    rw [newExpenses, List.filter_append]
    rw [attachFrom_filter_ne (Nat.ne_of_lt ht), ih (i + 1) _ t (Nat.lt_succ_of_lt ht)]
    rfl

theorem findNamed_newProjects_cons_self {hd : Project} {nm : String} (h : hd.name = nm)
    (tl : List Project) (i : Nat) :
    findNamed (newProjects i (hd :: tl)) nm =
      some ⟨i, hd.name, round2 hd.planned_budget, hd.created_at⟩ := by
  rw [newProjects, findNamed, List.find?_cons]
  have hb : (((⟨i, hd.name, round2 hd.planned_budget, hd.created_at⟩ : Project).name == nm)
      = true) := beq_iff_eq.mpr h
  rw [hb]

theorem findNamed_newProjects_cons_ne {hd : Project} {nm : String} (h : hd.name ≠ nm)
    (tl : List Project) (i : Nat) :
    findNamed (newProjects i (hd :: tl)) nm = findNamed (newProjects (i + 1) tl) nm := by
  rw [newProjects, findNamed, List.find?_cons]
  have hb : (((⟨i, hd.name, round2 hd.planned_budget, hd.created_at⟩ : Project).name == nm)
      = false) := beq_eq_false_iff_ne.mpr h
  rw [hb]
  rfl

theorem findNamed_newProjects_ge : ∀ (ps : List Project) (i : Nat) (nm : String) (q : Project),
    findNamed (newProjects i ps) nm = some q → i ≤ q.id := by
  intro ps
  induction ps with
  | nil => intro i nm q h; exact absurd h (by rw [newProjects, findNamed]; simp)
  | cons hd tl ih =>
    intro i nm q h
    by_cases hn : hd.name = nm
    · rw [findNamed_newProjects_cons_self hn] at h
      cases h
      exact le_rfl
    · rw [findNamed_newProjects_cons_ne hn] at h
      exact Nat.le_of_succ_le (ih (i + 1) nm q h)

/-- The expenses attached per project by the re-import have exactly the data
of the originally exported expenses, with amounts rounded to cents. -/
theorem chooseExpenses_new (st : Store) : ∀ (ps : List Project) (i j : Nat) (p : Project),
    p ∈ ps → (ps.map Project.name).Nodup →
    (chooseExpenses (newProjects i ps) (newExpenses st i j ps) p.name).map
        (fun e => (e.amount, e.description, e.expense_date)) =
      (exportExpensesOf st p.name).map
        (fun e => (round2 e.amount, e.description, e.expense_date)) := by
  intro ps
  induction ps with
  | nil => intro i j p hp; exact absurd hp (List.not_mem_nil p)
  | cons hd tl ih =>
    intro i j p hp hnodup
    have hnodup2 : (tl.map Project.name).Nodup := by
      rw [List.map_cons, List.nodup_cons] at hnodup
      exact hnodup.2
    have hhdnotin : hd.name ∉ tl.map Project.name := by
      rw [List.map_cons, List.nodup_cons] at hnodup
      exact hnodup.1
    rcases List.mem_cons.mp hp with rfl | hptl
    · rw [chooseExpenses, findNamed_newProjects_cons_self rfl]
      dsimp only
      rw [newExpenses, List.filter_append]
      rw [attachFrom_filter_self, newExpenses_filter_lt st tl (i + 1) _ i (Nat.lt_succ_self i),
        List.append_nil, attachFrom_data]
    · have hne : hd.name ≠ p.name := by
        intro hc
        exact hhdnotin (hc ▸ List.mem_map_of_mem Project.name hptl)
      rw [chooseExpenses, findNamed_newProjects_cons_ne hne]
      have hrec := ih (i + 1) (j + (exportExpensesOf st hd.name).length) p hptl hnodup2
      rw [chooseExpenses] at hrec
      cases hF : findNamed (newProjects (i + 1) tl) p.name with
      | none =>
        rw [hF] at hrec
        dsimp only at hrec ⊢
        exact hrec
      | some q =>
        rw [hF] at hrec
        dsimp only at hrec ⊢
        have hge : i + 1 ≤ q.id := findNamed_newProjects_ge tl (i + 1) p.name q hF
        rw [newExpenses, List.filter_append,
          attachFrom_filter_ne (by omega : q.id ≠ i), List.nil_append]
        exact hrec

/-- The export→import round trip for any well-formed store whose dates are
all non-empty. -/
theorem roundtrip_of_WF {st : Store} (hwf : WF st) (hd : DatesNonEmpty st) (today : String) :
    RoundTrips today st := by
  obtain ⟨hp, he⟩ := buildStore_spec st st.projects Store.empty
  have hp2 : (buildStore st st.projects Store.empty).projects = newProjects 1 st.projects := by
    rw [hp]
    rfl
  have he2 : (buildStore st st.projects Store.empty).expenses =
      newExpenses st 1 1 st.projects := by
    rw [he]
    rfl
  simp only [RoundTrips, export_import today hwf hd]
  constructor
  · rw [projData, hp2, newProjects_data]
  · intro p hpm
    have lhs : expData (buildStore st st.projects Store.empty) p.name =
        (chooseExpenses (newProjects 1 st.projects) (newExpenses st 1 1 st.projects) p.name).map
          (fun e => (e.amount, e.description, e.expense_date)) := by
      rw [expData, exportExpensesOf, hp2, he2]
    have rhs : (expData st p.name).map (fun t => (round2 t.1, t.2.1, t.2.2)) =
        (exportExpensesOf st p.name).map
          (fun e => (round2 e.amount, e.description, e.expense_date)) := by
      rw [expData, List.map_map]
      rfl
    rw [lhs, rhs]
    exact chooseExpenses_new st st.projects 1 1 p hpm hwf.names_nodup

/-! ### The claims -/

/-- C1, as stated, is false: a store reachable by importing a row whose
`CreatedAt` cell is whitespace-only stores the empty creation date; its export
emits `CreatedAt = ""`, which the re-import replaces by the current date, so
the reproduced project differs in `created_at`. -/
theorem C1_counterexample : Reachable stWsDate ∧ ¬ RoundTrips "2026-10-12" stWsDate := by
  constructor
  · exact Reachable.imported "2026-10-12" _ Reachable.empty
  · intro hrt
    exact absurd hrt.1 (by decide)

/-- C1 (amended): for every store reachable by the program's insertion
operations in which every stored `created_at` and `expense_date` is
non-empty, running `export_rows` and then `import_rows` on the resulting row
sequence against a fresh empty store reproduces the same projects (name,
planned budget, creation date) and the same expenses per project (amount,
description, date), with monetary values rounded to 2 decimals. -/
theorem C1_export_import_roundtrip (st : Store) (today : String) (h : Reachable st)
    (hd : DatesNonEmpty st) : RoundTrips today st :=
  roundtrip_of_WF h.wf hd today

theorem C1_export_import_roundtrip_witness :
    Reachable stRoof ∧ DatesNonEmpty stRoof ∧ RoundTrips "2027-01-01" stRoof :=
  ⟨Reachable.imported "2026-10-12" rowsRoof Reachable.empty, by decide,
    C1_export_import_roundtrip stRoof "2027-01-01"
      (Reachable.imported "2026-10-12" rowsRoof Reachable.empty) (by decide)⟩

/-- C2: in any batch, once a row with a non-empty `Project` and a Budget cell
that `parse_float` rejects (negative such as `"-5"`, or non-numeric) is
reached, `import_rows` raises `InvalidAmountError`, processes none of the
later rows (the result does not depend on them), and returns no counts. -/
theorem C2_budget_error_aborts (today : String) (st : Store) (pre post : List Row) (r : Row)
    (acc : Store × Nat × Nat) (hpre : importLoop today (st, 0, 0) pre = .ok acc)
    (hname : pyStrip (pyOr (rowGet r "Project") "") ≠ "")
    (hbt : pyStrip (pyOr (rowGet r "Budget") "") ≠ "")
    (herr : parse_float (pyStrip (pyOr (rowGet r "Budget") "")) = .error Err.invalidAmount) :
    import_rows today st (pre ++ r :: post) = (st, .error Err.invalidAmount) := by
  have hbp : budgetPhase acc.1 acc.2.1 (pyStrip (pyOr (rowGet r "Project") ""))
      (pyStrip (pyOr (rowGet r "Budget") ""))
      (pyStrip (pyOr (rowGet r "CreatedAt") today)) = .error Err.invalidAmount := by
    rw [budgetPhase, if_neg hbt]
    simp only [herr]
  have hstep : importStep today acc r = .error Err.invalidAmount := by
    simp only [importStep, if_neg hname, hbp]
  rw [import_rows, importLoop_append, hpre]
  dsimp only
  rw [importLoop, hstep]

theorem C2_budget_error_aborts_witness :
    importLoop "2026-10-12" (Store.empty, 0, 0) [] = .ok (Store.empty, 0, 0) ∧
    pyStrip (pyOr (rowGet [("Project", "X"), ("Budget", "-5")] "Project") "") ≠ "" ∧
    pyStrip (pyOr (rowGet [("Project", "X"), ("Budget", "-5")] "Budget") "") ≠ "" ∧
    parse_float (pyStrip (pyOr (rowGet [("Project", "X"), ("Budget", "-5")] "Budget") "")) =
      .error Err.invalidAmount ∧
    import_rows "2026-10-12" Store.empty
        ([] ++ [("Project", "X"), ("Budget", "-5")] :: [[("Project", "Y"), ("Budget", "2")]]) =
      (Store.empty, .error Err.invalidAmount) :=
  ⟨rfl, by decide, by decide, by decide,
    C2_budget_error_aborts "2026-10-12" Store.empty [] [[("Project", "Y"), ("Budget", "2")]]
      [("Project", "X"), ("Budget", "-5")] (Store.empty, 0, 0) rfl (by decide) (by decide)
      (by decide)⟩

/-- C3: importing the spec's two worked-example rows into an empty store
creates 1 project and 1 expense, and the Roof project then reports
`spent = 150.50` and `remaining = 849.50` (the import runs on any current
date, which the rows never consult). -/
theorem C3_roof_example (today : String) :
    (import_rows today Store.empty rowsRoof).2 = .ok (1, 1) ∧
    ∃ v, query_project (import_rows today Store.empty rowsRoof).1 1 = some v ∧
      v.name = "Roof" ∧ v.spent = (150.5 : Rat) ∧ v.remaining = (849.5 : Rat) := by
  have hind : import_rows today Store.empty rowsRoof =
      import_rows "2026-10-12" Store.empty rowsRoof := rfl
  have h1 : (150.5 : Rat) = mkRat 301 2 := by
    rw [Rat.mkRat_eq_div]
    norm_num
  have h2 : (849.5 : Rat) = mkRat 1699 2 := by
    rw [Rat.mkRat_eq_div]
    norm_num
  rw [hind, h1, h2]
  exact ⟨by decide, ⟨1, "Roof", mkRat 1000 1, "2024-01-01", mkRat 301 2, mkRat 1699 2⟩,
    by decide, by decide, by decide, by decide⟩

/-- C4: in both aggregate queries, `spent` is the exact sum of the amounts of
the project's expenses (`0`, never null, when there are none) and `remaining`
is `planned_budget - spent`; and `remaining` can go negative. -/
theorem C4_aggregates :
    (∀ (st : Store) (pid : Nat) (v : ProjView), query_project st pid = some v →
      v.spent = ((st.expenses.filter (fun e => e.project_id == pid)).map Expense.amount).sum ∧
      v.remaining = v.planned_budget - v.spent ∧
      (st.expenses.filter (fun e => e.project_id == pid) = [] → v.spent = 0)) ∧
    (∀ (st : Store) (v : ProjView), v ∈ query_projects st →
      v.spent = ((st.expenses.filter (fun e => e.project_id == v.id)).map Expense.amount).sum ∧
      v.remaining = v.planned_budget - v.spent) ∧
    (∃ (st : Store) (pid : Nat) (v : ProjView), query_project st pid = some v ∧
      v.remaining < 0) := by
  refine ⟨?_, ?_, ?_⟩
  · intro st pid v hv
    rw [query_project] at hv
    obtain ⟨p, hp, hvp⟩ := Option.map_eq_some'.mp hv
    obtain ⟨hpm, hpid⟩ := findById_mem hp
    subst hvp
    subst hpid
    rw [projView]
    dsimp only
    refine ⟨qsum_eq _, by rw [qsub_eq], ?_⟩
    intro hfil
    rw [hfil]
    rfl
  · intro st v hv
    rw [query_projects] at hv
    obtain ⟨p, hp, hvp⟩ := List.mem_map.mp hv
    subst hvp
    rw [projView]
    dsimp only
    exact ⟨qsum_eq _, by rw [qsub_eq]⟩
  · exact ⟨stNeg, 1, vNeg, by decide, by decide⟩

/-- C5: creating a project whose (stripped) name already exists in the store,
with a valid (non-empty name, parseable non-negative budget) form, fails with
`DuplicateNameError` and returns the store unchanged: the existing project's
fields and all expenses are untouched. -/
theorem C5_duplicate_name_rejected (today : String) (st : Store) (form : AddProjectForm)
    (b : Rat) (hname : pyStrip (pyOr form.name "") ≠ "")
    (hbudget : parse_float (pyStrip (pyOr form.planned_budget "")) = .ok b)
    (hdup : ∃ p ∈ st.projects, p.name = pyStrip (pyOr form.name "")) :
    handle_add_project today st form = (st, .error Err.duplicateName) := by
  have hfind : findByName st (pyStrip (pyOr form.name "")) ≠ none := by
    intro hc
    obtain ⟨p, hp, hpn⟩ := hdup
    exact (findByName_none_iff.mp hc) p hp hpn
  simp only [handle_add_project, if_neg hname, hbudget]
  cases hf : findByName st (pyStrip (pyOr form.name "")) with
  | none => exact absurd hf hfind
  | some q => rfl

theorem C5_duplicate_name_rejected_witness :
    pyStrip (pyOr formDup.name "") ≠ "" ∧
    parse_float (pyStrip (pyOr formDup.planned_budget "")) = .ok (mkRat 2 1) ∧
    (∃ p ∈ stDup.projects, p.name = pyStrip (pyOr formDup.name "")) ∧
    handle_add_project "2026-10-12" stDup formDup = (stDup, .error Err.duplicateName) :=
  ⟨by decide, by decide, by decide,
    C5_duplicate_name_rejected "2026-10-12" stDup formDup (mkRat 2 1) (by decide) (by decide)
      (by decide)⟩

/-- C6: a row whose `ExpenseAmount` parses to a valid amount but whose project
name matches no stored project, and whose `Budget` cell is blank, creates
nothing, raises nothing, and the import continues with the remaining rows
exactly as if the row were absent. -/
theorem C6_unknown_project_expense_skipped (today : String) (st : Store) (r : Row)
    (rest : List Row) (a : Rat)
    (hbudget : pyStrip (pyOr (rowGet r "Budget") "") = "")
    (hamount : parse_float (pyStrip (pyOr (rowGet r "ExpenseAmount") "")) = .ok a)
    (hnotfound : ∀ p ∈ st.projects, p.name ≠ pyStrip (pyOr (rowGet r "Project") "")) :
    import_rows today st (r :: rest) = import_rows today st rest := by
  have hstep : importStep today (st, 0, 0) r = .ok (st, 0, 0) := by
    simp only [importStep]
    by_cases hn : pyStrip (pyOr (rowGet r "Project") "") = ""
    · rw [if_pos hn]
    · rw [if_neg hn, hbudget, budgetPhase_empty]
      dsimp only
      have hne : pyStrip (pyOr (rowGet r "ExpenseAmount") "") ≠ "" := by
        intro hc
        rw [hc] at hamount
        simp [parse_float, pyFloat] at hamount
      have hep : expensePhase st 0 (pyStrip (pyOr (rowGet r "Project") ""))
          (pyStrip (pyOr (rowGet r "ExpenseAmount") ""))
          (pyStrip (pyOr (rowGet r "ExpenseDescription") ""))
          (pyStrip (pyOr (rowGet r "ExpenseDate") today)) = .ok (st, 0) := by
        rw [expensePhase, if_neg hne]
        simp only [hamount, findByName_none_iff.mpr hnotfound]
      rw [hep]
  rw [import_rows, import_rows, importLoop, hstep]

theorem C6_unknown_project_expense_skipped_witness :
    pyStrip (pyOr (rowGet rowUnknown "Budget") "") = "" ∧
    parse_float (pyStrip (pyOr (rowGet rowUnknown "ExpenseAmount") "")) = .ok (mkRat 5 1) ∧
    (∀ p ∈ stKnown.projects, p.name ≠ pyStrip (pyOr (rowGet rowUnknown "Project") "")) ∧
    import_rows "2026-10-12" stKnown
        (rowUnknown :: [[("Project", "B"), ("ExpenseAmount", "1")]]) =
      import_rows "2026-10-12" stKnown [[("Project", "B"), ("ExpenseAmount", "1")]] :=
  ⟨by decide, by decide, by decide,
    C6_unknown_project_expense_skipped "2026-10-12" stKnown rowUnknown
      [[("Project", "B"), ("ExpenseAmount", "1")]] (mkRat 5 1) (by decide) (by decide)
      (by decide)⟩

theorem digitsVal_nil : digitsVal [] = 0 := rfl

theorem charToDigit_inv {c : Char} {d : Nat} (h : charToDigit c = some d) :
    digitToChar d = c ∧ d < 10 := by
  rw [charToDigit] at h
  split_ifs at h <;>
    (injection h with h0
     subst h0
     subst_vars
     exact ⟨rfl, by omega⟩)

theorem takeDigits_inv (cs : List Char) : ∀ {ds : List Nat} {r : List Char},
    takeDigits cs = (ds, r) →
    cs = ds.map digitToChar ++ r ∧ (∀ d ∈ ds, d < 10) ∧
      (∀ c, r.head? = some c → charToDigit c = none) := by
  induction cs with
  | nil =>
    intro ds r h
    rw [takeDigits] at h
    cases h
    exact ⟨rfl, (by intro d hd; cases hd), (by intro c hc; simp at hc)⟩
  | cons c cs ih =>
    intro ds r h
    rw [takeDigits] at h
    cases hc : charToDigit c with
    | none =>
      simp only [hc] at h
      cases h
      refine ⟨rfl, (by intro d hd; cases hd), ?_⟩
      intro c0 hc0
      rw [List.head?_cons] at hc0
      cases hc0
      exact hc
    | some d =>
      simp only [hc] at h
      obtain ⟨h1, h2, h3⟩ := ih (rfl : takeDigits cs = ((takeDigits cs).1, (takeDigits cs).2))
      cases h
      refine ⟨?_, ?_, h3⟩
      · rw [List.map_cons, List.cons_append, (charToDigit_inv hc).1, ← h1]
      · intro x hx
        rcases List.mem_cons.mp hx with rfl | hx2
        · exact (charToDigit_inv hc).2
        · exact h2 x hx2

theorem pyFloatAux_inv {cs : List Char} {q : Rat} (h : pyFloatAux cs = some q) :
    ∃ I F : List Nat, (∀ d ∈ I, d < 10) ∧ (∀ d ∈ F, d < 10) ∧
      ((cs = I.map digitToChar ∧ I ≠ [] ∧ F = [] ∧ q = (digitsVal I : Rat)) ∨
       (cs = I.map digitToChar ++ '.' :: F.map digitToChar ∧ ¬(I = [] ∧ F = []) ∧
        q = mkRat (digitsVal I * 10 ^ F.length + digitsVal F) (10 ^ F.length))) := by
  simp only [pyFloatAux] at h
  obtain ⟨ds, r, hp⟩ : ∃ ds r, takeDigits cs = (ds, r) := ⟨_, _, rfl⟩
  obtain ⟨h1, h2, h3⟩ := takeDigits_inv cs hp
  simp only [hp] at h
  cases r with
  | nil =>
    dsimp only at h
    split_ifs at h with hne
    injection h with hq
    exact ⟨ds, [], h2, (by intro d hd; cases hd),
      Or.inl ⟨(by simpa using h1), hne, rfl, hq.symm⟩⟩
  | cons c2 rest =>
    dsimp only at h
    by_cases hdot : c2 = '.'
    · rw [if_pos hdot] at h
      subst hdot
      obtain ⟨fs, fr, hf⟩ : ∃ fs fr, takeDigits rest = (fs, fr) := ⟨_, _, rfl⟩
      obtain ⟨g1, g2, g3⟩ := takeDigits_inv rest hf
      simp only [hf] at h
      split_ifs at h with hcond
      injection h with hq
      refine ⟨ds, fs, h2, g2, Or.inr ⟨?_, hcond.2, hq.symm⟩⟩
      rw [h1, g1, hcond.1]
      simp
    · rw [if_neg hdot] at h
      exact Option.noConfusion h

theorem decValue_int (I : List Nat) : decValue I [] 0 = (digitsVal I : Rat) := by
  rw [decValue, if_pos le_rfl, Rat.mkRat_eq_div]
  simp [digitsVal_nil]

theorem decValue_zero (I F : List Nat) :
    decValue I F 0 = mkRat (digitsVal I * 10 ^ F.length + digitsVal F) (10 ^ F.length) := by
  rw [decValue, if_pos le_rfl]
  norm_num

theorem pyNumber_int (I : List Nat) (hI : ∀ d ∈ I, d < 10) (hne : I ≠ []) :
    pyNumber (I.map digitToChar) = some ((digitsVal I : Rat)) := by
  have h1 : takeDigits (I.map digitToChar) = (I, []) := by
    have h0 := takeDigits_append I [] hI (by intro c hc; simp at hc)
    simpa using h0
  simp only [pyNumber, h1]
  simp [hne, decValue_int]

theorem pyNumber_dec (I F : List Nat) (hI : ∀ d ∈ I, d < 10) (hF : ∀ d ∈ F, d < 10)
    (hne : ¬(I = [] ∧ F = [])) :
    pyNumber (I.map digitToChar ++ '.' :: F.map digitToChar) =
      some (mkRat (digitsVal I * 10 ^ F.length + digitsVal F) (10 ^ F.length)) := by
  have h1 : takeDigits (I.map digitToChar ++ '.' :: F.map digitToChar) =
      (I, '.' :: F.map digitToChar) := by
    apply takeDigits_append I _ hI
    intro c hc
    rw [List.head?_cons] at hc
    cases hc
    rfl
  have h2 : takeDigits (F.map digitToChar) = (F, []) := by
    have h3 := takeDigits_append F [] hF (by intro c hc; simp at hc)
    simpa using h3
  simp only [pyNumber, h1, h2]
  simp [hne, decValue_zero]

theorem digitToChar_plain {d : Nat} (h : d < 10) :
    pySpace (digitToChar d) = false ∧ ¬(digitToChar d = '_') ∧
      ¬(digitToChar d = 'i' ∨ digitToChar d = 'I') ∧
      ¬(digitToChar d = 'n' ∨ digitToChar d = 'N') := by
  interval_cases d <;> decide

theorem floatStrip_eq_self {l : List Char} (h : ∀ c ∈ l, pySpace c = false) :
    floatStrip l = l := by
  rw [floatStrip, dropWhile_eq_self_of _ _ h, dropWhile_eq_self_of, List.reverse_reverse]
  intro c hc
  exact h c (List.mem_reverse.mp hc)

theorem okAux_no_underscore : ∀ (l : List Char) (prev : Option Char),
    (∀ c ∈ l, ¬(c = '_')) → okAux prev l = true := by
  intro l
  induction l with
  | nil => intro prev h; rfl
  | cons c cs ih =>
    intro prev h
    rw [okAux.eq_def]
    dsimp only
    rw [if_neg (h c (List.mem_cons_self c cs))]
    exact ih (some c) (fun x hx => h x (List.mem_cons_of_mem c hx))

theorem filter_no_underscore {l : List Char} (h : ∀ c ∈ l, ¬(c = '_')) :
    l.filter (fun c => !(c == '_')) = l := by
  rw [List.filter_eq_self]
  intro a ha
  simpa using h a ha

theorem pySpecial_none {neg : Bool} {c : Char} {cs : List Char}
    (h1 : ¬(c = 'i' ∨ c = 'I')) (h2 : ¬(c = 'n' ∨ c = 'N')) :
    pySpecial neg (c :: cs) = none := by
  simp [pySpecial, matchCI, h1, h2]

/-- A text accepted by the plain-decimal parser consists of digits and at
most one point, and the full-grammar body parses it to the same value under
either sign. -/
theorem pyFloatAux_full {cs : List Char} {q : Rat} (h : pyFloatAux cs = some q) :
    (∀ c ∈ cs, pySpace c = false ∧ ¬(c = '_')) ∧
    pyFloatSigned false cs = some (PyVal.num q) ∧
    pyFloatSigned true cs = some (PyVal.num (-q)) := by
  obtain ⟨I, F, hI, hF, hsh⟩ := pyFloatAux_inv h
  have hchar : ∀ {L : List Nat}, (∀ d ∈ L, d < 10) →
      ∀ c ∈ L.map digitToChar, pySpace c = false ∧ ¬(c = '_') := by
    intro L hL c hc
    obtain ⟨d, hd, rfl⟩ := List.mem_map.mp hc
    exact ⟨(digitToChar_plain (hL d hd)).1, (digitToChar_plain (hL d hd)).2.1⟩
  rcases hsh with ⟨hcs, hne, hFnil, hq⟩ | ⟨hcs, hne, hq⟩
  · subst hcs
    subst hq
    have hspec : ∀ neg, pySpecial neg (I.map digitToChar) = none := by
      intro neg
      cases I with
      | nil => exact absurd rfl hne
      | cons d I2 =>
        rw [List.map_cons]
        have hp := digitToChar_plain (hI d (List.mem_cons_self d I2))
        exact pySpecial_none hp.2.2.1 hp.2.2.2
    have hnum := pyNumber_int I hI hne
    exact ⟨hchar hI, by simp [pyFloatSigned, hspec, hnum], by simp [pyFloatSigned, hspec, hnum]⟩
  · subst hcs
    subst hq
    have hspec : ∀ neg,
        pySpecial neg (I.map digitToChar ++ '.' :: F.map digitToChar) = none := by
      intro neg
      cases I with
      | nil =>
        rw [List.map_nil, List.nil_append]
        exact pySpecial_none (by decide) (by decide)
      | cons d I2 =>
        rw [List.map_cons, List.cons_append]
        have hp := digitToChar_plain (hI d (List.mem_cons_self d I2))
        exact pySpecial_none hp.2.2.1 hp.2.2.2
    have hnum := pyNumber_dec I F hI hF hne
    refine ⟨?_, by simp [pyFloatSigned, hspec, hnum], by simp [pyFloatSigned, hspec, hnum]⟩
    intro c hc
    rcases List.mem_append.mp hc with hc1 | hc2
    · exact hchar hI c hc1
    · rcases List.mem_cons.mp hc2 with rfl | hc3
      · exact ⟨by decide, by decide⟩
      · exact hchar hF c hc3

theorem pyFloatFull_eval {s : String} {c : Char} {cs : List Char} {v : PyVal}
    (hd : s.data = c :: cs)
    (hall : ∀ x ∈ c :: cs, pySpace x = false ∧ ¬(x = '_'))
    (hbody : (if c = '-' then pyFloatSigned true cs
              else if c = '+' then pyFloatSigned false cs
              else pyFloatSigned false (c :: cs)) = some v) :
    pyFloatFull s = some v := by
  have hstrip : floatStrip (c :: cs) = c :: cs :=
    floatStrip_eq_self (fun x hx => (hall x hx).1)
  have hund : underscoresOK (c :: cs) = true :=
    okAux_no_underscore (c :: cs) none (fun x hx => (hall x hx).2)
  have hfilt : (c :: cs).filter (fun x => !(x == '_')) = c :: cs :=
    filter_no_underscore (fun x hx => (hall x hx).2)
  simp only [pyFloatFull, hd]
  rw [hstrip, if_pos hund, hfilt]
  exact hbody

/-- The plain-decimal parser is the restriction of the full `float()` model:
whatever it parses, `pyFloatFull` parses to the same finite value. -/
theorem pyFloat_restriction {s : String} {q : Rat} (h : pyFloat s = some q) :
    pyFloatFull s = some (PyVal.num q) := by
  cases hd : s.data with
  | nil =>
    rw [pyFloat, hd] at h
    exact Option.noConfusion h
  | cons c cs =>
    rw [pyFloat, hd] at h
    dsimp only at h
    by_cases hm : c = '-'
    · subst hm
      rw [if_pos rfl] at h
      obtain ⟨q0, h0, hq0⟩ := Option.map_eq_some'.mp h
      obtain ⟨hch, hsg⟩ := pyFloatAux_full h0
      refine pyFloatFull_eval hd ?_ ?_
      · intro x hx
        rcases List.mem_cons.mp hx with rfl | hx2
        · exact ⟨by decide, by decide⟩
        · exact hch x hx2
      · rw [if_pos rfl, hsg.2, show (-q0 : Rat) = q from hq0]
    · by_cases hp : c = '+'
      · subst hp
        rw [if_neg (by decide), if_pos rfl] at h
        obtain ⟨hch, hsg⟩ := pyFloatAux_full h
        refine pyFloatFull_eval hd ?_ ?_
        · intro x hx
          rcases List.mem_cons.mp hx with rfl | hx2
          · exact ⟨by decide, by decide⟩
          · exact hch x hx2
        · rw [if_neg (by decide), if_pos rfl, hsg.1]
      · rw [if_neg hm, if_neg hp] at h
        obtain ⟨hch, hsg⟩ := pyFloatAux_full h
        exact pyFloatFull_eval hd hch (by rw [if_neg hm, if_neg hp, hsg.1])

/-- C7, counterexample: the parser does not return values only on texts
denoting non-negative real numbers.  `float("inf")` parses (so do
`"Infinity"`, `"nan"` and their case variants), the sign check `number < 0`
is false on `inf` and on `nan`, and so `parse_float` returns a value on the
inputs `"inf"` and `"nan"` — texts that denote no real number at all, as
`PyVal.toRat?` records. -/
theorem C7_counterexample :
    parse_float_full "inf" = .ok (PyVal.inf false) ∧ (PyVal.inf false).toRat? = none ∧
    parse_float_full "nan" = .ok PyVal.nan ∧ PyVal.nan.toRat? = none :=
  ⟨by decide, rfl, by decide, rfl⟩

/-- C7 (amended): `float()` also accepts the `inf`/`infinity`/`nan`
spellings, whose values are not real numbers yet pass the `number < 0` check
(see the counterexample), so the claimed raises-iff holds on exactly the
input strings whose parse, if any, is a finite number: there `parse_float`
returns a value exactly when the text parses to a non-negative number, and
raises `InvalidAmountError` exactly when the text does not parse or parses
to a negative number. -/
theorem C7_parse_float_raises_iff_full (s : String)
    (hfin : ∀ v, pyFloatFull s = some v → ∃ q, v = PyVal.num q) :
    ((∃ q, parse_float_full s = .ok (PyVal.num q)) ↔
      ∃ q, pyFloatFull s = some (PyVal.num q) ∧ 0 ≤ q) ∧
    (parse_float_full s = .error Err.invalidAmount ↔
      pyFloatFull s = none ∨ ∃ q, pyFloatFull s = some (PyVal.num q) ∧ q < 0) := by
  rw [parse_float_full]
  cases hp : pyFloatFull s with
  | none => simp
  | some v =>
    obtain ⟨q, rfl⟩ := hfin v hp
    dsimp only [pyLt0]
    by_cases hq : q < 0
    · rw [if_pos (decide_eq_true hq)]
      constructor
      · constructor
        · intro ⟨q2, hq2⟩
          exact Except.noConfusion hq2
        · intro ⟨q2, hq2, hq02⟩
          cases hq2
          exact absurd hq (not_lt.mpr hq02)
      · constructor
        · intro _
          exact Or.inr ⟨q, rfl, hq⟩
        · intro _
          rfl
    · rw [if_neg (by simpa using hq)]
      constructor
      · constructor
        · intro ⟨q2, hq2⟩
          cases hq2
          exact ⟨q, rfl, not_lt.mp hq⟩
        · intro _
          exact ⟨q, rfl⟩
      · constructor
        · intro hc
          exact Except.noConfusion hc
        · intro hor
          rcases hor with hor | ⟨q2, hq2, hq02⟩
          · exact Option.noConfusion hor
          · cases hq2
            exact absurd hq02 hq

/-- Witness for C7: the concrete input `" 1e3"` — leading whitespace and an
exponent, parsed by `float()` to `1000` — satisfies the finiteness
hypothesis and instantiates the amended raises-iff. -/
theorem C7_parse_float_raises_iff_full_witness :
    (∀ v, pyFloatFull " 1e3" = some v → ∃ q, v = PyVal.num q) ∧
    ((∃ q, parse_float_full " 1e3" = .ok (PyVal.num q)) ↔
      ∃ q, pyFloatFull " 1e3" = some (PyVal.num q) ∧ 0 ≤ q) ∧
    (parse_float_full " 1e3" = .error Err.invalidAmount ↔
      pyFloatFull " 1e3" = none ∨
        ∃ q, pyFloatFull " 1e3" = some (PyVal.num q) ∧ q < 0) :=
  have hfin : ∀ v, pyFloatFull " 1e3" = some v → ∃ q, v = PyVal.num q := fun v hv => by
    rw [show pyFloatFull " 1e3" = some (PyVal.num (mkRat 1000 1)) from by decide] at hv
    exact ⟨mkRat 1000 1, (Option.some.inj hv).symm⟩
  ⟨hfin, (C7_parse_float_raises_iff_full " 1e3" hfin).1,
    (C7_parse_float_raises_iff_full " 1e3" hfin).2⟩

/-- C8: referential integrity is an invariant of every insertion path: the
interactive project and expense handlers and the bulk import all preserve
"every expense's `project_id` is the id of a stored project", so no
insertion can create an orphan expense. -/
theorem C8_no_orphans_invariant :
    (∀ (today : String) (st : Store) (form : AddProjectForm), NoOrphans st →
      NoOrphans (handle_add_project today st form).1) ∧
    (∀ (today : String) (st : Store) (form : AddExpenseForm), NoOrphans st →
      NoOrphans (handle_add_expense today st form).1) ∧
    (∀ (today : String) (st : Store) (rows : List Row), NoOrphans st →
      NoOrphans (import_rows today st rows).1) :=
  ⟨fun _ _ _ h => handle_add_project_noOrphans h,
   fun _ _ _ h => handle_add_expense_noOrphans h,
   fun _ _ _ h => import_rows_noOrphans h⟩

theorem C8_no_orphans_invariant_witness :
    NoOrphans stOrph ∧ NoOrphans (handle_add_expense "2026-10-12" stOrph formOrphExp).1 :=
  ⟨by decide, C8_no_orphans_invariant.2.1 "2026-10-12" stOrph formOrphExp (by decide)⟩

/-- C9: when a batch import raises, the enclosing transaction rolls back and
the committed store is exactly the store from before the call: nothing
written for earlier rows survives. -/
theorem C9_import_rollback (today : String) (st : Store) (rows : List Row) (e : Err)
    (h : (import_rows today st rows).2 = .error e) : (import_rows today st rows).1 = st := by
  rw [import_rows] at h ⊢
  cases hl : importLoop today (st, 0, 0) rows with
  | ok acc =>
    obtain ⟨st2, pa, ea⟩ := acc
    rw [hl] at h
    exact Except.noConfusion h
  | error f => rfl

theorem C9_import_rollback_witness :
    (import_rows "2026-10-12" Store.empty
        [[("Project", "A"), ("Budget", "1"), ("CreatedAt", "2024-01-01")],
         [("Project", "B"), ("Budget", "x")]]).2 = .error Err.invalidAmount ∧
    (import_rows "2026-10-12" Store.empty
        [[("Project", "A"), ("Budget", "1"), ("CreatedAt", "2024-01-01")],
         [("Project", "B"), ("Budget", "x")]]).1 = Store.empty :=
  ⟨by decide,
    C9_import_rollback "2026-10-12" Store.empty
      [[("Project", "A"), ("Budget", "1"), ("CreatedAt", "2024-01-01")],
       [("Project", "B"), ("Budget", "x")]] Err.invalidAmount (by decide)⟩

/-- C10: the blank-field defaults of `import_rows` are asymmetric.  The date
fields are computed as `(cell or today).strip()`, so a whitespace-only cell
survives the falsy test and then strips to the empty string, while a missing
or empty cell falls back to today's date; the description is stripped first
and replaced by "Imported expense" whenever the stripped text is empty.  The
store-level conjuncts exhibit the stored values with a single space as the
whitespace-only cell. -/
theorem C10_blank_defaults_asymmetric (today w : String) (hw : w ≠ "")
    (hws : pyStrip w = "") (ht : pyStrip today = today) :
    pyStrip (pyOr (some w) today) = "" ∧
    pyStrip (pyOr none today) = today ∧
    pyStrip (pyOr (some "") today) = today ∧
    (if pyStrip (pyOr (some w) "") = "" then "Imported expense"
     else pyStrip (pyOr (some w) "")) = "Imported expense" ∧
    (import_rows "2026-10-12" Store.empty
        [[("Project", "P"), ("Budget", "1"), ("CreatedAt", " ")]]).1.projects.map
          Project.created_at = [""] ∧
    (import_rows "2026-10-12" Store.empty
        [[("Project", "P"), ("Budget", "1")]]).1.projects.map Project.created_at =
      ["2026-10-12"] ∧
    (import_rows "2026-10-12" Store.empty
        [[("Project", "P"), ("Budget", "1"), ("CreatedAt", "2024-01-01")],
         [("Project", "P"), ("ExpenseAmount", "2"), ("ExpenseDescription", " "),
          ("ExpenseDate", " ")]]).1.expenses.map
          (fun e => (e.description, e.expense_date)) = [("Imported expense", "")] ∧
    (import_rows "2026-10-12" Store.empty
        [[("Project", "P"), ("Budget", "1"), ("CreatedAt", "2024-01-01")],
         [("Project", "P"), ("ExpenseAmount", "2"), ("ExpenseDescription", "d")]]).1.expenses.map
          Expense.expense_date = ["2026-10-12"] := by
  refine ⟨?_, ?_, ?_, ?_, by decide, by decide, by decide, by decide⟩
  · rw [pyOr_some_ne hw]
    exact hws
  · rw [pyOr_none]
    exact ht
  · rw [pyOr_some_empty]
    exact ht
  · rw [pyOr_some_ne hw, hws]
    decide

theorem C10_blank_defaults_asymmetric_witness :
    (" " : String) ≠ "" ∧ pyStrip " " = "" ∧ pyStrip "2026-10-12" = "2026-10-12" ∧
    pyStrip (pyOr (some " ") "2026-10-12") = "" :=
  ⟨by decide, by decide, by decide,
    (C10_blank_defaults_asymmetric "2026-10-12" " " (by decide) (by decide) (by decide)).1⟩

theorem C4_aggregates_witness :
    query_project stNeg 1 = some vNeg ∧
    (vNeg.spent = ((stNeg.expenses.filter (fun e => e.project_id == 1)).map Expense.amount).sum ∧
     vNeg.remaining = vNeg.planned_budget - vNeg.spent ∧
     (stNeg.expenses.filter (fun e => e.project_id == 1) = [] → vNeg.spent = 0)) :=
  ⟨by decide, C4_aggregates.1 stNeg 1 vNeg (by decide)⟩

end BudgetApp
